import Mathlib

/-!
Shallow embedding of the verdant service-manager stack (saltnpepper97/verdant):
the verdantd descriptor parser/loader, dependency orderer, supervisor loop,
process stop logic, IPC endpoint and the vctl CLI, together with theorems
checking the natural-language specification against this code.

Modelling conventions:
* Rust `String` operations are re-implemented over `List Char` with structural
  recursion so that every definition reduces in the kernel.
* Rust `HashMap` / `HashSet` have unspecified iteration order; they are
  modelled as association lists in first-insertion order (a deterministic
  stand-in, noted wherever iteration order is observable).
* `Vec::sort_by_key` is a stable sort; it is modelled by a stable insertion
  sort (any two stable sorts under the same total key agree pointwise).
* Machine integers are modelled as `Nat`/`Int`; the only arithmetic sites
  where wrap-around could matter are noted and proved unreachable or modelled
  with an explicit `% 2^w`.
* Filesystem, clocks, signals and child processes are threaded through the
  functions as explicit inputs (directory listings, poll oracles, event
  traces), mirroring exactly the branching structure of the source.
-/

namespace Verdant

/-! ## Shared error and status types (src/bloom/src/errors.rs, status.rs) -/

/-- Model of `BloomError` (src/bloom/src/errors.rs). The `Io` and `Nix`
payloads (`std::io::Error`, `nix::Error`) are modelled by their display
strings. -/
inductive BloomError where
  | Io : String → BloomError
  | Parse : String → BloomError
  | InvalidCommand : BloomError
  | NotFound : BloomError
  | ServiceFailed : BloomError
  | Nix : String → BloomError
  | Custom : String → BloomError
deriving Repr, DecidableEq

/-- Decidable equality for `Except` results, used to evaluate the modelled
fallible functions on concrete inputs. -/
instance {ε α : Type} [DecidableEq ε] [DecidableEq α] : DecidableEq (Except ε α) :=
  fun a b =>
    match a, b with
    | Except.ok x, Except.ok y =>
      if h : x = y then isTrue (by rw [h]) else isFalse (by simp [h])
    | Except.error x, Except.error y =>
      if h : x = y then isTrue (by rw [h]) else isFalse (by simp [h])
    | Except.ok _, Except.error _ => isFalse (by simp)
    | Except.error _, Except.ok _ => isFalse (by simp)

/-- Model of `RestartPolicy` (src/verdantd/src/service_file.rs). -/
inductive RestartPolicy where
  | OnFailure
  | Always
  | Never
deriving Repr, DecidableEq, Inhabited

/-- Model of `ServiceState` (src/bloom/src/status.rs). -/
inductive ServiceState where
  | Stopped
  | Starting
  | Running
  | Stopping
  | Failed
deriving Repr, DecidableEq, Inhabited

/-- Model of the parsed `.vs` descriptor `ServiceFile`
(src/verdantd/src/service_file.rs).  `u64` fields are `Nat`, `i32` fields are
`Int`.  The `instances` field is absent from the service_file.rs snapshot
but is required by parser.rs:89-95 (which reads and writes
`service.instances`) and listed in the descriptor data model; it is included
here as the `Option<Vec<String>>` that parser.rs demands. -/
structure ServiceFile where
  name : String
  desc : Option String
  cmd : String
  args : Option (List String)
  pre_cmd : Option String
  post_cmd : Option String
  package : Option String
  startup_package : Option String
  env : Option (List String)
  user : Option String
  group : Option String
  working_dir : Option String
  restart : RestartPolicy
  restart_delay : Option Nat
  stop_cmd : Option String
  timeout_start : Option Nat
  timeout_stop : Option Nat
  dependencies : Option (List String)
  priority : Option Int
  stdout_log : Option String
  stderr_log : Option String
  umask : Option String
  nice : Option Int
  tags : Option (List String)
  instances : Option (List String)
deriving Repr, DecidableEq

/-- Model of `ServiceFile::new(name, cmd)` (service_file.rs): every other
field empty, `restart` defaulting to `Never`. -/
def ServiceFile.new (name cmd : String) : ServiceFile where
  name := name
  desc := none
  cmd := cmd
  args := none
  pre_cmd := none
  post_cmd := none
  package := none
  startup_package := none
  env := none
  user := none
  group := none
  working_dir := none
  restart := RestartPolicy.Never
  restart_delay := none
  stop_cmd := none
  timeout_start := none
  timeout_stop := none
  dependencies := none
  priority := none
  stdout_log := none
  stderr_log := none
  umask := none
  nice := none
  tags := none
  instances := none

instance : Inhabited ServiceFile := ⟨ServiceFile.new "" ""⟩

/-! ## Dependency orderer (src/verdantd/src/ordering.rs)

`order_services` builds a `HashMap<String, ServiceFile>` keyed by name (later
inserts replace earlier values), a dependent-adjacency map `graph` and an
`in_degree` map, and runs Kahn's algorithm, re-sorting the queue by
`priority.unwrap_or(50)` after each pop.  The `HashMap`s keyed by the service
names are modelled as an association list in first-insertion order (for the
name map) plus total functions `String → List String` / `String → Nat` for
`graph` / `in_degree`, which the code pre-populates for every key. -/

/-- Model of `HashMap::insert` on the name map: a later insert with an
existing key replaces the value; iteration order is modelled as
first-insertion order. -/
def insertNameMap (m : List (String × ServiceFile)) (k : String) (v : ServiceFile) :
    List (String × ServiceFile) :=
  if m.any (fun p => p.1 = k) then
    m.map (fun p => if p.1 = k then (k, v) else p)
  else
    m ++ [(k, v)]

/-- Name map built by the first loop of `order_services` (ordering.rs:8-11). -/
def buildNameMap (services : List ServiceFile) : List (String × ServiceFile) :=
  services.foldl (fun m svc => insertNameMap m svc.name svc) []

/-- Lookup in the modelled name map (`name_map[k]` / `name_map.remove(&k)`,
which in the code are only reached for present keys). -/
def svcOf (m : List (String × ServiceFile)) (k : String) : ServiceFile :=
  match m.find? (fun p => p.1 = k) with
  | some p => p.2
  | none => default

/-- Edge-insertion loop over one service's dependency list
(ordering.rs:23-37): for each `dep` of service `name`, push `name` onto
`graph[dep]` and increment `in_degree[name]`, or fail on an unregistered
dependency. -/
def addDeps (names : List String) (name : String) :
    List String → ((String → List String) × (String → Nat)) →
    Except BloomError ((String → List String) × (String → Nat))
  | [], st => Except.ok st
  | dep :: rest, (graph, indeg) =>
    if dep ∈ names then
      addDeps names name rest
        ((fun k => if k = dep then graph k ++ [name] else graph k),
         (fun k => if k = name then indeg k + 1 else indeg k))
    else
      Except.error (BloomError.Custom
        ("Unknown dependency \x27" ++ dep ++ "\x27 for service \x27" ++ name ++ "\x27"))

/-- Graph/in-degree construction of `order_services` (ordering.rs:13-37),
iterating the name map in model order. -/
def buildGraph (nameMap : List (String × ServiceFile)) (names : List String) :
    Except BloomError ((String → List String) × (String → Nat)) :=
  nameMap.foldlM
    (fun st p => addDeps names p.1 (p.2.dependencies.getD []) st)
    ((fun _ => []), (fun _ => 0))

/-- Stable insertion of an element after all elements the comparison keeps
before it.  Used to model Rust's stable `sort_by_key`. -/
def insertStable (le : String → String → Bool) (a : String) :
    List String → List String
  | [] => [a]
  | b :: bs => if le b a then b :: insertStable le a bs else a :: b :: bs

/-- Stable sort modelling `queue.make_contiguous().sort_by_key(..)`
(ordering.rs:64-66).  Rust's slice sort is stable; any stable sort under the
same total key produces the same list, so a stable insertion sort is a
faithful model. -/
def sortByKey (le : String → String → Bool) (l : List String) : List String :=
  l.foldl (fun acc x => insertStable le x acc) []

/-- Kahn loop state: the ready queue, current in-degrees, the visited set
(modelled as a list in insertion order) and the emitted order. -/
structure KahnSt where
  queue : List String
  deg : String → Nat
  visited : List String
  ordered : List String

/-- Model of the neighbour loop of one Kahn iteration (ordering.rs:55-61):
decrement each neighbour's in-degree, enqueueing it when the degree reaches
zero and it has not been visited.  The `usize` decrement cannot underflow on
any reachable state (each stored degree counts exactly the unprocessed
incoming edges; see `processNeighbors_deg`), so plain `Nat` subtraction is a
faithful model of the source's `*deg -= 1`. -/
def processNeighbors (visited : List String) :
    List String → (String → Nat) → List String → ((String → Nat) × List String)
  | [], deg, q => (deg, q)
  | nb :: rest, deg, q =>
    let d := deg nb - 1
    let deg2 := fun k => if k = nb then d else deg k
    let q2 := if d = 0 ∧ nb ∉ visited then q ++ [nb] else q
    processNeighbors visited rest deg2 q2

/-- One iteration of the Kahn `while let` loop (ordering.rs:50-67) for popped
head `name` and remaining queue `rest`. -/
def kahnStep (graph : String → List String) (prio : String → Int)
    (st : KahnSt) (name : String) (rest : List String) : KahnSt :=
  let visited := if name ∈ st.visited then st.visited else st.visited ++ [name]
  let ordered := st.ordered ++ [name]
  let (deg2, q2) := processNeighbors visited (graph name) st.deg rest
  { queue := sortByKey (fun a b => prio a ≤ prio b) q2
    deg := deg2
    visited := visited
    ordered := ordered }

/-- The Kahn `while let Some(name) = queue.pop_front()` loop.  `fuel` bounds
the number of pops; `order_services` passes the number of registered names,
which always suffices: each pop appends one fresh name to `ordered`
(`ordered ++ queue` stays duplicate-free within the registered names), so
after `names.length` pops the queue is necessarily empty. -/
def kahnLoop (graph : String → List String) (prio : String → Int) :
    Nat → KahnSt → KahnSt
  | 0, st => st
  | fuel + 1, st =>
    match st.queue with
    | [] => st
    | name :: rest => kahnLoop graph prio fuel (kahnStep graph prio st name rest)

/-- Model of `order_services` (src/verdantd/src/ordering.rs:7-77). -/
def order_services (services : List ServiceFile) : Except BloomError (List ServiceFile) :=
  let nameMap := buildNameMap services
  let names := nameMap.map Prod.fst
  match buildGraph nameMap names with
  | Except.error e => Except.error e
  | Except.ok (graph, indeg) =>
    let queue0 := names.filter (fun n => indeg n = 0)
    let prio := fun n => (svcOf nameMap n).priority.getD 50
    let st := kahnLoop graph prio names.length
      { queue := queue0, deg := indeg, visited := [], ordered := [] }
    if st.ordered.length = names.length then
      Except.ok (st.ordered.map (svcOf nameMap))
    else
      Except.error (BloomError.Custom "Cycle detected in service dependencies")

/-! ## String helpers

Re-implementations of the Rust `str` operations used by the parser/loader,
over `List Char` with structural recursion (so every definition reduces in
the kernel).  Rust trims Unicode whitespace; the inputs of interest are
ASCII, where `Char.isWhitespace` agrees with Rust's `char::is_whitespace`. -/

/-- Whitespace predicate used to model Rust's `char::is_whitespace` /
`str::trim*` on ASCII inputs. -/
def rustIsWS (c : Char) : Bool := c.isWhitespace

/-- Rust `str::trim_start` on a char list. -/
def trimStartChars (l : List Char) : List Char := l.dropWhile rustIsWS

/-- Rust `str::trim_end` on a char list. -/
def trimEndChars (l : List Char) : List Char := (l.reverse.dropWhile rustIsWS).reverse

/-- Rust `str::trim` on a char list. -/
def trimChars (l : List Char) : List Char := trimStartChars (trimEndChars l)

/-- Rust `str::split_once(c)`: split at the first occurrence of `c`. -/
def splitOnceChar (c : Char) : List Char → Option (List Char × List Char)
  | [] => none
  | x :: xs =>
    if x = c then some ([], xs)
    else (splitOnceChar c xs).map (fun p => (x :: p.1, p.2))

/-- Prefix test on char lists (Rust `str::starts_with`). -/
def isPrefixList : List Char → List Char → Bool
  | [], _ => true
  | _ :: _, [] => false
  | p :: ps, c :: cs => p = c ∧ isPrefixList ps cs

/-- Split at every occurrence of `sep`, keeping empty segments (the shape of
Rust's `str::split(sep)`). -/
def splitCharList (sep : Char) : List Char → List (List Char)
  | [] => [[]]
  | c :: cs =>
    if c = sep then [] :: splitCharList sep cs
    else
      match splitCharList sep cs with
      | h :: t => (c :: h) :: t
      | [] => [[c]]

/-- Rust `BufRead::lines` over the full content: split on `'\n'`, drop a
trailing `'\r'` from every newline-terminated line, and do not produce a
final empty line for content ending in `'\n'`. -/
def rustLines (content : List Char) : List (List Char) :=
  let parts := splitCharList '\n' content
  let body := parts.dropLast.map
    (fun l => if l.getLast? = some '\x0d' then l.dropLast else l)
  let last := parts.getLastD []
  body ++ (if last = [] then [] else [last])

/-- Rust `str::split_whitespace` on a char list: whitespace-separated words,
no empties. -/
def splitWhitespaceChars (l : List Char) : List (List Char) :=
  (l.splitOnP rustIsWS).filter (fun w => ¬ w.isEmpty)

/-- Helper for `replaceAll`, structurally recursive on a fuel that starts at
the input length (the input shrinks by at least one character per step, so
the fuel never runs out). -/
def replaceAllAux (pat rep : List Char) : Nat → List Char → List Char
  | _, [] => []
  | 0, s => s
  | fuel + 1, c :: cs =>
    if isPrefixList pat (c :: cs) then
      rep ++ replaceAllAux pat rep fuel (cs.drop (pat.length - 1))
    else
      c :: replaceAllAux pat rep fuel cs

/-- Rust `str::replace(pat, rep)`: replace every non-overlapping occurrence,
left to right.  Every pattern used in this code base (`"{key}"`, `"@"`,
`".vs"`) is non-empty, so the empty-pattern branch is never exercised. -/
def replaceAll (pat rep s : List Char) : List Char :=
  if pat.isEmpty then s else replaceAllAux pat rep s.length s

/-- Digit-string accumulator for integer parsing. -/
def parseDigitsAux (acc : Nat) : List Char → Option Nat
  | [] => some acc
  | c :: cs =>
    if c.isDigit then parseDigitsAux (acc * 10 + (c.toNat - 48)) cs else none

/-- Parse a non-empty all-digit string to a `Nat`. -/
def parseDigits : List Char → Option Nat
  | [] => none
  | l => parseDigitsAux 0 l

/-- Rust `u64::from_str` (an optional leading `'+'`, digits, value below
`2^64`). -/
def parseU64 (l : List Char) : Option Nat :=
  let t := match l with | '+' :: rest => rest | _ => l
  match parseDigits t with
  | some n => if n < 2 ^ 64 then some n else none
  | none => none

/-- Rust `i32::from_str` (optional sign, digits, two's-complement bounds). -/
def parseI32 (l : List Char) : Option Int :=
  match l with
  | '-' :: rest =>
    (parseDigits rest).bind (fun n => if n ≤ 2 ^ 31 then some (-(n : Int)) else none)
  | '+' :: rest =>
    (parseDigits rest).bind (fun n => if n < 2 ^ 31 then some ((n : Int)) else none)
  | _ =>
    (parseDigits l).bind (fun n => if n < 2 ^ 31 then some ((n : Int)) else none)

/-! ## Descriptor parser (src/verdantd/src/parser.rs) -/

/-- Model of `apply_template` (parser.rs:14-21): replace `{key}` with `val`
for every entry of `vars`.  The Rust `HashMap` iteration order is
unspecified; callers pass at most one variable (`id`), so the list order is
immaterial. -/
def apply_template (content : String) (vars : List (String × String)) : String :=
  vars.foldl
    (fun result kv =>
      ⟨replaceAll (('\x7b' :: kv.1.data) ++ ['\x7d']) kv.2.data result.data⟩)
    content

/-- Append a value to an optional list field (the push-or-init pattern of
parser.rs:68-95). -/
def pushOpt (field : Option (List String)) (val : String) : Option (List String) :=
  match field with
  | some vs => some (vs ++ [val])
  | none => some [val]

/-- Processing of one line of the `.vs` parser loop (parser.rs:45-181),
threading the `(service, current_key)` state. -/
def parseLine (svc : ServiceFile) (currentKey : Option String) (rawLine : List Char) :
    ServiceFile × Option String :=
  let line := trimEndChars rawLine
  if line.isEmpty ∨ line.head? = some '#' then
    (svc, currentKey)
  else if isPrefixList [' ', ' '] line ∨ line.head? = some '\x09' then
    match currentKey with
    | some key =>
      let val : String :=
        if key = "instances" then
          ⟨trimEndChars (line.dropWhile (fun c => c = '-' ∨ rustIsWS c))⟩
        else
          ⟨trimChars (line.dropWhile (fun c => c = '-'))⟩
      match key with
      | "env" => ({ svc with env := pushOpt svc.env val }, currentKey)
      | "dependencies" => ({ svc with dependencies := pushOpt svc.dependencies val }, currentKey)
      | "tags" => ({ svc with tags := pushOpt svc.tags val }, currentKey)
      | "instances" => ({ svc with instances := pushOpt svc.instances val }, currentKey)
      | _ => (svc, currentKey)
    | none => (svc, currentKey)
  else
    match splitOnceChar ':' line with
    | some kv =>
      let key : String := ⟨trimChars kv.1⟩
      let val : String := ⟨trimChars kv.2⟩
      let ck := some key
      match key with
      | "name" => ({ svc with name := val }, ck)
      | "desc" => ({ svc with desc := if val = "" then none else some val }, ck)
      | "cmd" => ({ svc with cmd := val }, ck)
      | "args" =>
        if val = "" then ({ svc with args := none }, ck)
        else ({ svc with args := some ((splitWhitespaceChars val.data).map
                  (fun w => (⟨w⟩ : String))) }, ck)
      | "pre-cmd" => ({ svc with pre_cmd := if val = "" then none else some val }, ck)
      | "post-cmd" => ({ svc with post_cmd := if val = "" then none else some val }, ck)
      | "package" => ({ svc with package := if val = "" then none else some val }, ck)
      | "startup-package" =>
        ({ svc with startup_package := if val = "" then none else some val }, ck)
      | "user" => ({ svc with user := if val = "" then none else some val }, ck)
      | "group" => ({ svc with group := if val = "" then none else some val }, ck)
      | "working-dir" => ({ svc with working_dir := if val = "" then none else some val }, ck)
      | "restart" =>
        let policy :=
          match val with
          | "on-failure" => RestartPolicy.OnFailure
          | "always" => RestartPolicy.Always
          | "never" => RestartPolicy.Never
          | _ => RestartPolicy.Never
        ({ svc with restart := policy }, ck)
      | "restart-delay" =>
        match parseU64 val.data with
        | some delay => ({ svc with restart_delay := some delay }, ck)
        | none => (svc, ck)
      | "stop-cmd" => ({ svc with stop_cmd := if val = "" then none else some val }, ck)
      | "timeout-start" =>
        match parseU64 val.data with
        | some t => ({ svc with timeout_start := some t }, ck)
        | none => (svc, ck)
      | "timeout-stop" =>
        match parseU64 val.data with
        | some t => ({ svc with timeout_stop := some t }, ck)
        | none => (svc, ck)
      | "priority" =>
        match parseI32 val.data with
        | some p => ({ svc with priority := some p }, ck)
        | none => (svc, ck)
      | "stdout-log" => ({ svc with stdout_log := if val = "" then none else some val }, ck)
      | "stderr-log" => ({ svc with stderr_log := if val = "" then none else some val }, ck)
      | "umask" => ({ svc with umask := if val = "" then none else some val }, ck)
      | "nice" =>
        match parseI32 val.data with
        | some n => ({ svc with nice := some n }, ck)
        | none => (svc, ck)
      | "env" => ({ svc with env := some [] }, ck)
      | "dependencies" => ({ svc with dependencies := some [] }, ck)
      | "tags" => ({ svc with tags := some [] }, ck)
      | _ => (svc, ck)
    | none => (svc, currentKey)

/-- The parser's line loop (parser.rs:41-181) over the substituted content,
starting from `ServiceFile::new(String::new(), String::new())`. -/
def parseLoop (lines : List (List Char)) : ServiceFile :=
  (lines.foldl (fun st l => parseLine st.1 st.2 l) (ServiceFile.new "" "", none)).1

/-- Default-filling block of `parse_service_file` (parser.rs:194-217). -/
def applyDefaults (service : ServiceFile) : ServiceFile :=
  let service :=
    if service.restart_delay = none then { service with restart_delay := some 0 } else service
  let service :=
    if service.timeout_start = none then { service with timeout_start := some 10 } else service
  let service :=
    if service.timeout_stop = none then { service with timeout_stop := some 5 } else service
  let service :=
    if service.umask = none then { service with umask := some "022" } else service
  let service :=
    if service.nice = none then { service with nice := some 0 } else service
  let service :=
    if service.priority = none then { service with priority := some 50 } else service
  let service :=
    if service.stdout_log = none then
      { service with stdout_log := some ("/var/log/verdant/services/" ++ service.name ++ ".out.log") }
    else service
  let service :=
    if service.stderr_log = none then
      { service with stderr_log := some ("/var/log/verdant/services/" ++ service.name ++ ".err.log") }
    else service
  service

/-- Rust `format!("{:?}", path)` for a plain path (quotes around the
string; escaping of special characters inside the path is not modelled). -/
def quoteDebug (s : String) : String := "\x22" ++ s ++ "\x22"

/-- Model of `parse_service_file` (src/verdantd/src/parser.rs:24-220).  The
file's content stands in for the `fs::read_to_string` result; `vars` is the
template-variable map. -/
def parse_service_file (path : String) (content : String)
    (vars : List (String × String)) : Except BloomError ServiceFile :=
  let substituted := apply_template content vars
  let service := parseLoop (rustLines substituted.data)
  if service.name = "" then
    Except.error (BloomError.Custom
      ("Service file " ++ quoteDebug path ++ " missing required \x27name\x27"))
  else if service.cmd = "" then
    Except.error (BloomError.Custom
      ("Service file " ++ quoteDebug path ++ " missing required \x27cmd\x27"))
  else
    Except.ok (applyDefaults service)

/-! ## Service loader (src/verdantd/src/loader.rs)

`load_services` scans `/etc/verdant/services` for `*.vs` files.  A file whose
name contains `@` is expanded once per tty device `tty1..tty6` found in
`/dev` (via `find_tty_devices`), parsing with the single template variable
`id` and renaming the result; the parsed `instances` field is never
consulted.  The directory and `/dev` listings are explicit inputs (every
listed entry stands for a regular file); per-file parse failures are logged
and skipped. -/

/-- Rust `Path::extension` on a file name: the part after the last `'.'`,
none when there is no `'.'` or the only `'.'` is the leading character of a
hidden file. -/
def rustExtension (filename : String) : Option String :=
  match splitOnceChar '.' filename.data.reverse with
  | none => none
  | some p => if p.2.isEmpty then none else some ⟨p.1.reverse⟩

/-- Model of `find_tty_devices` (loader.rs:87-104): names in `/dev` of the
form `tty<digits>` whose numeric value lies in `1..=6`. -/
def find_tty_devices (devNames : List String) : List String :=
  devNames.filter (fun name =>
    isPrefixList ['t', 't', 'y'] name.data &&
    (name.data.drop 3).all Char.isDigit &&
    match parseDigits (name.data.drop 3) with
    | some num => decide (1 ≤ num) && decide (num ≤ 6)
    | none => false)

/-- The new name of a templated instance (loader.rs:47):
`filename.replace("@", "@<id>").replace(".vs", "")`. -/
def templateName (filename id : String) : String :=
  ⟨replaceAll ['.', 'v', 's'] [] (replaceAll ['@'] ('@' :: id.data) filename.data)⟩

/-- Descriptors produced from a single `.vs` directory entry
(loader.rs:40-73).  Parse failures are logged and skipped. -/
def loadOne (filename content : String) (devNames : List String) : List ServiceFile :=
  if filename.data.contains '@' then
    (find_tty_devices devNames).filterMap (fun id =>
      match parse_service_file filename content [("id", id)] with
      | Except.ok service => some { service with name := templateName filename id }
      | Except.error _ => none)
  else
    match parse_service_file filename content [] with
    | Except.ok service => [service]
    | Except.error _ => []

/-- The `services` vector accumulated by the directory loop of
`load_services` (loader.rs:20-75), before ordering. -/
def loadParsed (dirEntries : List (String × String)) (devNames : List String) :
    List ServiceFile :=
  dirEntries.foldl
    (fun services entry =>
      if rustExtension entry.1 = some "vs" then
        services ++ loadOne entry.1 entry.2 devNames
      else services)
    []

/-- Model of `load_services` (src/verdantd/src/loader.rs:15-85): parse the
directory, then apply `order_services`. -/
def load_services (dirEntries : List (String × String)) (devNames : List String) :
    Except BloomError (List ServiceFile) :=
  order_services (loadParsed dirEntries devNames)

/-! ## Supervisor (src/verdantd/src/supervisor.rs)

The supervisor loop is modelled as a transition system.  Each loop iteration
consumes one `SupEnv` describing what the environment does at that
iteration: the `shutdown_flag` reads, the `is_tty_in_use` probe result, the
`try_wait` outcome and whether `start_service` / `stop_service` would
succeed.  The observable side effects (spawning, stopping, the restart-delay
sleep) are emitted as `SupAction`s.  `last_start` timestamps and log output
are not modelled. -/

/-- Outcome of `child.try_wait()` for one iteration: an observed exit (with
`status.success()`), still running, or a wait error. -/
inductive WaitRes where
  | exited : Bool → WaitRes
  | running : WaitRes
  | waitErr : WaitRes
deriving Repr, DecidableEq

/-- Environment of one supervisor loop iteration. -/
structure SupEnv where
  shutdown : Bool
  shutdownAfterExit : Bool
  ttyInUse : Bool
  wait : WaitRes
  startOk : Bool
  stopOk : Bool
  waitExitObserved : Bool
deriving Repr, DecidableEq

/-- Observable supervisor side effects. -/
inductive SupAction where
  | launch
  | stopChild
  | restartSleep : Nat → SupAction
  | sigkillChild
deriving Repr, DecidableEq

/-- Mutable supervisor state (supervisor.rs:14-23): the child handle
(presence), `restart_count` and the service state. -/
structure SupState where
  child : Bool
  restart_count : Nat
  state : ServiceState
deriving Repr, DecidableEq

/-- Model of `Supervisor::is_tty_instance` (supervisor.rs:102-112): splits
the service name at the first `'@'` and requires the part before it to be
exactly `"tty"`. -/
def is_tty_instance (name : String) : Option String :=
  match splitOnceChar '@' name.data with
  | some p => if (⟨p.1⟩ : String) = "tty" then some (⟨p.2⟩ : String) else none
  | none => none

/-- Model of `Supervisor::start` (supervisor.rs:42-61).  Note that a
successful start unconditionally resets `restart_count` to 0
(supervisor.rs:58).  The `u32` counter increment elsewhere is modelled with
an explicit `% 2^32`. -/
def supStart (name : String) (st : SupState) (startOk : Bool) :
    SupState × List SupAction × Option BloomError :=
  if st.child then
    (st, [], some (BloomError.Custom
      ("Service \x27" ++ name ++ "\x27 already running")))
  else
    let st1 := { st with state := ServiceState.Starting }
    if startOk then
      ({ st1 with child := true, restart_count := 0 }, [SupAction.launch], none)
    else
      (st1, [], some (BloomError.Custom
        ("Failed to start service \x27" ++ name ++ "\x27")))

/-- Model of `Supervisor::stop` (supervisor.rs:63-83).  `stopOk` is whether
`stop_service` returns `Ok`; on failure the `?` leaves the state at
`Stopping` with the child still attached. -/
def supStop (name : String) (st : SupState) (stopOk : Bool) :
    SupState × List SupAction × Option BloomError :=
  if st.child then
    let st1 := { st with state := ServiceState.Stopping }
    if stopOk then
      ({ st1 with child := false, state := ServiceState.Stopped },
       [SupAction.stopChild], none)
    else
      (st1, [SupAction.stopChild], some (BloomError.Custom "stop failed"))
  else
    (st, [], some (BloomError.Custom
      ("Service \x27" ++ name ++ "\x27 not running")))

/-- Result of one loop iteration: continue, break out of the loop, or
return an error. -/
inductive StepOut where
  | cont : SupState → ServiceState → List SupAction → StepOut
  | brk : SupState → List SupAction → StepOut
  | err : SupState → List SupAction → BloomError → StepOut
deriving Repr, DecidableEq

/-- One iteration of the `loop` in `Supervisor::supervise_loop`
(supervisor.rs:170-321) with popped environment `env` and `last_state`
`last`. -/
def superviseStep (svc : ServiceFile) (st : SupState) (last : ServiceState)
    (env : SupEnv) : StepOut :=
  if env.shutdown then
    -- shutdown_flag branch (supervisor.rs:171-186): `let _ = self.shutdown()`
    -- then wait_for_exit_with_timeout(5 s) (observed exit / timeout+SIGKILL).
    let s := supStop svc.name st env.stopOk
    if s.1.child then
      if env.waitExitObserved then
        StepOut.brk { s.1 with child := false, state := ServiceState.Stopped } s.2.1
      else
        StepOut.brk s.1 (s.2.1 ++ [SupAction.sigkillChild])
    else
      StepOut.brk s.1 s.2.1
  else
    match is_tty_instance svc.name with
    | some _tid =>
      -- tty@ branch (supervisor.rs:189-226); it never updates last_state.
      if env.ttyInUse then
        if st.state ≠ ServiceState.Stopped then
          let s := supStop svc.name st env.stopOk
          StepOut.cont s.1 last s.2.1
        else
          StepOut.cont st last []
      else
        if st.state = ServiceState.Stopped ∧ svc.restart = RestartPolicy.Always then
          let s := supStart svc.name st env.startOk
          match s.2.2 with
          | some e => StepOut.err { s.1 with state := ServiceState.Failed } s.2.1 e
          | none => StepOut.cont s.1 last s.2.1
        else
          StepOut.cont st last []
    | none =>
      -- normal supervise branch (supervisor.rs:227-318)
      if st.child then
        match env.wait with
        | WaitRes.exited ok =>
          let st1 := { st with child := false }
          if env.shutdownAfterExit then
            StepOut.brk st1 []
          else
            let restartPath : SupState × List SupAction × Option BloomError :=
              let st2 :=
                { st1 with restart_count := (st1.restart_count + 1) % 2 ^ 32 }
              let sleepActs :=
                match svc.restart_delay with
                | some delay => [SupAction.restartSleep delay]
                | none => []
              let st3 := { st2 with state := ServiceState.Starting }
              let s := supStart svc.name st3 env.startOk
              (s.1, sleepActs ++ s.2.1, s.2.2)
            match svc.restart with
            | RestartPolicy.Always =>
              match restartPath.2.2 with
              | some e =>
                StepOut.err { restartPath.1 with state := ServiceState.Failed }
                  restartPath.2.1 e
              | none =>
                StepOut.cont { restartPath.1 with state := ServiceState.Starting }
                  ServiceState.Starting restartPath.2.1
            | RestartPolicy.OnFailure =>
              if ¬ ok then
                match restartPath.2.2 with
                | some e =>
                  StepOut.err { restartPath.1 with state := ServiceState.Failed }
                    restartPath.2.1 e
                | none =>
                  StepOut.cont { restartPath.1 with state := ServiceState.Starting }
                    ServiceState.Starting restartPath.2.1
              else
                StepOut.cont { st1 with state := ServiceState.Stopped }
                  ServiceState.Stopped []
            | RestartPolicy.Never =>
              StepOut.cont { st1 with state := ServiceState.Stopped }
                ServiceState.Stopped []
        | WaitRes.running =>
          let current :=
            if st.state = ServiceState.Starting then ServiceState.Running else st.state
          StepOut.cont { st with state := current } current []
        | WaitRes.waitErr =>
          StepOut.err { st with state := ServiceState.Failed } []
            (BloomError.Custom ("Failed to wait for service " ++ svc.name))
      else
        StepOut.brk st []

/-- One recorded iteration: the pre-state, the environment consumed and the
actions performed. -/
structure TraceEntry where
  pre : SupState
  env : SupEnv
  acts : List SupAction
deriving Repr, DecidableEq

/-- The supervisor loop over a finite environment trace. -/
def superviseGo (svc : ServiceFile) :
    SupState → ServiceState → List SupEnv →
    SupState × List TraceEntry × Option BloomError
  | st, _, [] => (st, [], none)
  | st, last, env :: rest =>
    match superviseStep svc st last env with
    | StepOut.cont st1 last1 a =>
      let r := superviseGo svc st1 last1 rest
      (r.1, ⟨st, env, a⟩ :: r.2.1, r.2.2)
    | StepOut.brk st1 a => (st1, [⟨st, env, a⟩], none)
    | StepOut.err st1 a e => (st1, [⟨st, env, a⟩], some e)

/-- Initial start block of `supervise_loop` (supervisor.rs:139-168), before
the loop: start the child unless it is a tty@ instance whose tty is in
use. -/
def superviseInit (svc : ServiceFile) (st : SupState) (probe startOk : Bool) :
    SupState × List SupAction × Option BloomError :=
  if st.child then (st, [], none)
  else
    let st1 := { st with state := ServiceState.Starting }
    match is_tty_instance svc.name with
    | some _tid =>
      if probe then
        ({ st1 with state := ServiceState.Stopped }, [], none)
      else
        let s := supStart svc.name st1 startOk
        match s.2.2 with
        | some e => ({ s.1 with state := ServiceState.Failed }, s.2.1, some e)
        | none => (s.1, s.2.1, none)
    | none =>
      let s := supStart svc.name st1 startOk
      match s.2.2 with
      | some e => ({ s.1 with state := ServiceState.Failed }, s.2.1, some e)
      | none => (s.1, s.2.1, none)

/-- Model of `Supervisor::supervise_loop` (supervisor.rs:135-324): initial
start (with its own probe / spawn outcome), then the loop over `envs`.
Returns the final state, the initial-phase actions, the loop trace and the
error returned, if any. -/
def supervise_loop (svc : ServiceFile) (st0 : SupState) (probe startOk : Bool)
    (envs : List SupEnv) :
    SupState × List SupAction × List TraceEntry × Option BloomError :=
  let last := st0.state
  let ini := superviseInit svc st0 probe startOk
  match ini.2.2 with
  | some e => (ini.1, ini.2.1, [], some e)
  | none =>
    let r := superviseGo svc ini.1 last envs
    (r.1, ini.2.1, r.2.1, r.2.2)

/-! ## Process stop (src/verdantd/src/process.rs)

`stop_service` is modelled with an oracle giving the outcome of each
successive `kill` syscall (signal sends and null-signal liveness polls), and
an event list recording the observable calls and sleeps.  Absent a real
clock, `start.elapsed()` is modelled as 100 ms per completed sleep, so a
poll loop with timeout `t` seconds performs `10·t` sleeps before its
timeout check fires (the timeouts used are whole seconds, so the 100 ms
quantisation is exact). -/

/-- ESRCH ("No such process") versus any other `nix` error (the code
distinguishes them by the display string). -/
inductive KillErr where
  | esrch
  | other : String → KillErr
deriving Repr, DecidableEq

/-- Outcome of one `kill` syscall. -/
inductive KillOutcome where
  | ok
  | err : KillErr → KillOutcome
deriving Repr, DecidableEq

/-- Signals sent by `stop_service`. -/
inductive Sig where
  | SIGTERM
  | SIGKILL
deriving Repr, DecidableEq

/-- Observable events of `stop_service`: the stop command, sleeps and kill
syscalls (`sig = none` is the null-signal liveness poll). -/
inductive StopEvent where
  | runStopCmd : String → StopEvent
  | sleepMs : Nat → StopEvent
  | kill : Int → Option Sig → KillOutcome → StopEvent
deriving Repr, DecidableEq

/-- The `pid as i32` cast (process.rs:108), two's complement. -/
def i32cast (n : Nat) : Int := (((n : Int) + 2 ^ 31) % 2 ^ 32) - 2 ^ 31

/-- How a polling loop ended: the process disappeared (ESRCH), the timeout
elapsed, or a non-ESRCH error occurred. -/
inductive PollEnd where
  | gone
  | timedOut
  | errOther : String → PollEnd
deriving Repr, DecidableEq

/-- The SIGTERM-phase poll loop (process.rs:135-158): poll, break on
timeout, sleep 100 ms otherwise; ESRCH means the process exited; any other
error is logged and breaks to the SIGKILL path.  `steps` is the remaining
sleep budget (`timeout` seconds = `10·timeout` steps). -/
def pollTermPh (oracle : Nat → KillOutcome) (pidT : Int) :
    Nat → Nat → PollEnd × List StopEvent × Nat
  | steps, idx =>
    match oracle idx, steps with
    | KillOutcome.ok, 0 =>
      (PollEnd.timedOut, [StopEvent.kill pidT none KillOutcome.ok], idx + 1)
    | KillOutcome.ok, s + 1 =>
      let r := pollTermPh oracle pidT s (idx + 1)
      (r.1, StopEvent.kill pidT none KillOutcome.ok :: StopEvent.sleepMs 100 :: r.2.1,
       r.2.2)
    | KillOutcome.err KillErr.esrch, _ =>
      (PollEnd.gone, [StopEvent.kill pidT none (KillOutcome.err KillErr.esrch)], idx + 1)
    | KillOutcome.err (KillErr.other m), _ =>
      (PollEnd.errOther m,
       [StopEvent.kill pidT none (KillOutcome.err (KillErr.other m))], idx + 1)

/-- The SIGKILL-phase poll loop (process.rs:181-207): like the SIGTERM
phase, but timeout and non-ESRCH errors produce an error return. -/
def pollKillPh (oracle : Nat → KillOutcome) (pidT : Int) :
    Nat → Nat → PollEnd × List StopEvent × Nat
  | steps, idx =>
    match oracle idx, steps with
    | KillOutcome.ok, 0 =>
      (PollEnd.timedOut, [StopEvent.kill pidT none KillOutcome.ok], idx + 1)
    | KillOutcome.ok, s + 1 =>
      let r := pollKillPh oracle pidT s (idx + 1)
      (r.1, StopEvent.kill pidT none KillOutcome.ok :: StopEvent.sleepMs 100 :: r.2.1,
       r.2.2)
    | KillOutcome.err KillErr.esrch, _ =>
      (PollEnd.gone, [StopEvent.kill pidT none (KillOutcome.err KillErr.esrch)], idx + 1)
    | KillOutcome.err (KillErr.other m), _ =>
      (PollEnd.errOther m,
       [StopEvent.kill pidT none (KillOutcome.err (KillErr.other m))], idx + 1)

/-- Model of `stop_service` (src/verdantd/src/process.rs:79-207).
`stopCmdStatus` is the outcome of the optional shell stop command (`none`
for an io error, `some b` for an exit with success `b`); `oracle i` is the
outcome of the i-th `kill` syscall. -/
def stop_service (service : ServiceFile) (pid : Nat)
    (stopCmdStatus : Option Bool) (oracle : Nat → KillOutcome) :
    Except BloomError Unit × List StopEvent :=
  let pidT := i32cast pid
  let cmdPart : Option (Except BloomError Unit) × List StopEvent :=
    match service.stop_cmd with
    | some c =>
      match stopCmdStatus with
      | none => (some (Except.error (BloomError.Io "stop command io error")),
                 [StopEvent.runStopCmd c])
      | some _b =>
        (none, [StopEvent.runStopCmd c,
                StopEvent.sleepMs ((service.timeout_stop.getD 5) * 1000)])
    | none => (none, [])
  match cmdPart.1 with
  | some r => (r, cmdPart.2)
  | none =>
    match oracle 0 with
    | KillOutcome.err KillErr.esrch =>
      (Except.ok (),
       cmdPart.2 ++ [StopEvent.kill pidT (some Sig.SIGTERM)
         (KillOutcome.err KillErr.esrch)])
    | KillOutcome.err (KillErr.other m) =>
      (Except.error (BloomError.Custom
        ("Failed to send SIGTERM to pid " ++ Nat.repr pid ++ ": " ++ m)),
       cmdPart.2 ++ [StopEvent.kill pidT (some Sig.SIGTERM)
         (KillOutcome.err (KillErr.other m))])
    | KillOutcome.ok =>
      let evs0 := cmdPart.2 ++ [StopEvent.kill pidT (some Sig.SIGTERM) KillOutcome.ok]
      let ph1 := pollTermPh oracle pidT ((service.timeout_stop.getD 5) * 10) 1
      match ph1.1 with
      | PollEnd.gone => (Except.ok (), evs0 ++ ph1.2.1)
      | _ =>
        let evs1 := evs0 ++ ph1.2.1
        let i := ph1.2.2
        match oracle i with
        | KillOutcome.err KillErr.esrch =>
          (Except.ok (), evs1 ++ [StopEvent.kill pidT (some Sig.SIGKILL)
            (KillOutcome.err KillErr.esrch)])
        | KillOutcome.err (KillErr.other m) =>
          (Except.error (BloomError.Custom
            ("Failed to send SIGKILL to pid " ++ Nat.repr pid ++ ": " ++ m)),
           evs1 ++ [StopEvent.kill pidT (some Sig.SIGKILL)
             (KillOutcome.err (KillErr.other m))])
        | KillOutcome.ok =>
          let evs2 := evs1 ++ [StopEvent.kill pidT (some Sig.SIGKILL) KillOutcome.ok]
          let ph2 := pollKillPh oracle pidT 20 (i + 1)
          match ph2.1 with
          | PollEnd.gone => (Except.ok (), evs2 ++ ph2.2.1)
          | PollEnd.timedOut =>
            (Except.error (BloomError.Custom
              ("Process " ++ Nat.repr pid ++ " did not exit after SIGKILL")),
             evs2 ++ ph2.2.1)
          | PollEnd.errOther m =>
            (Except.error (BloomError.Custom
              ("Error checking process " ++ Nat.repr pid ++ " status: " ++ m)),
             evs2 ++ ph2.2.1)

/-! ## IPC types (src/bloom/src/ipc.rs) -/

/-- Model of `IpcTarget` (ipc.rs). -/
inductive IpcTarget where
  | Init
  | Verdantd
deriving Repr, DecidableEq

/-- Model of `IpcInternal` (ipc.rs). -/
inductive IpcInternal where
  | PreShutdown
  | ReloadConfig
deriving Repr, DecidableEq

/-- Model of `IpcCommand` (ipc.rs). -/
inductive IpcCommand where
  | Shutdown
  | Reboot
  | StartService : String → IpcCommand
  | StopService : String → IpcCommand
  | RestartService : String → IpcCommand
  | EnableService : String → IpcCommand
  | DisableService : String → IpcCommand
  | GetStatus
  | GetServiceStatus : String → IpcCommand
  | Internal : IpcInternal → IpcCommand
deriving Repr, DecidableEq

/-- Model of `IpcRequest` (ipc.rs). -/
structure IpcRequest where
  target : IpcTarget
  command : IpcCommand
deriving Repr, DecidableEq

/-- Model of `IpcResponse` (ipc.rs).  The `data : Option<serde_json::Value>`
payload is modelled opaquely as an `Option String`; this code only ever sends
`None`. -/
structure IpcResponse where
  success : Bool
  message : String
  data : Option String
deriving Repr, DecidableEq

/-- Rust `Debug` rendering of the two commands interpolated by
`format!("{:?} initiated", request.command)` in ipc_server.rs:125. -/
def cmdDebug : IpcCommand → String
  | IpcCommand.Shutdown => "Shutdown"
  | IpcCommand.Reboot => "Reboot"
  | IpcCommand.StartService s => "StartService(" ++ s ++ ")"
  | IpcCommand.StopService s => "StopService(" ++ s ++ ")"
  | IpcCommand.RestartService s => "RestartService(" ++ s ++ ")"
  | IpcCommand.EnableService s => "EnableService(" ++ s ++ ")"
  | IpcCommand.DisableService s => "DisableService(" ++ s ++ ")"
  | IpcCommand.GetStatus => "GetStatus"
  | IpcCommand.GetServiceStatus s => "GetServiceStatus(" ++ s ++ ")"
  | IpcCommand.Internal IpcInternal.PreShutdown => "Internal(PreShutdown)"
  | IpcCommand.Internal IpcInternal.ReloadConfig => "Internal(ReloadConfig)"

/-! ## verdantd control endpoint (src/verdantd/src/ipc_server.rs)

`handle_client` reads one newline-terminated JSON request and matches ONLY on
`request.command`; `request.target` is never inspected.  The model takes the
parse result (`none` for a serde failure) and returns the response written to
the stream together with a flag telling whether the shutdown/reboot sequence
was initiated (shutdown_flag set, `Manager::shutdown` invoked, command
forwarded to init). -/

/-- Model of `handle_client` (ipc_server.rs:93-212): response written to the
client and whether the shutdown/reboot procedure was started. -/
def handle_client (parsed : Option IpcRequest) : IpcResponse × Bool :=
  match parsed with
  | none =>
    ({ success := false, message := "Invalid IPC request", data := none }, false)
  | some request =>
    match request.command with
    | IpcCommand.Shutdown =>
      ({ success := true, message := cmdDebug request.command ++ " initiated",
         data := none }, true)
    | IpcCommand.Reboot =>
      ({ success := true, message := cmdDebug request.command ++ " initiated",
         data := none }, true)
    | _ =>
      ({ success := false, message := "Unsupported command", data := none }, false)

/-! ## vctl control CLI (src/vctl/src/main.rs) -/

/-- Model of the `vctl` subcommands (`Commands` in src/vctl/src/main.rs). -/
inductive Commands where
  | Shutdown
  | Reboot
deriving Repr, DecidableEq

/-- One line written by vctl to stdout or stderr. -/
inductive OutEvent where
  | stdout : String → OutEvent
  | stderr : String → OutEvent
deriving Repr, DecidableEq

/-- The request `vctl` sends (main.rs:26-29): always `target: Verdantd`. -/
def vctlRequest (cmd : Commands) : IpcRequest where
  target := IpcTarget.Verdantd
  command :=
    match cmd with
    | Commands.Shutdown => IpcCommand.Shutdown
    | Commands.Reboot => IpcCommand.Reboot

/-- Model of `vctl`'s `main` (src/vctl/src/main.rs:18-43), parametrised by the
outcome of `send_ipc_request` (an `io::Error` is modelled by its display
string).  Returns the process exit code and the lines written.  `main`
returns `()` and never calls `process::exit`, so the exit code is 0 on every
path. -/
def vctl_main (cmd : Commands) (sendResult : Except String IpcResponse) :
    Nat × List OutEvent :=
  let _request := vctlRequest cmd
  match sendResult with
  | Except.ok response =>
    if response.success then
      (0, [OutEvent.stdout ("Command succeeded: " ++ response.message)])
    else
      (0, [OutEvent.stderr ("Command failed: " ++ response.message)])
  | Except.error e =>
    (0, [OutEvent.stderr ("Failed to send IPC request: " ++ e)])

/-! ## Claims C3, C8, C10: the dependency orderer

Verification of the modelled Kahn iteration: an `Ok` result is a
permutation of the registered descriptors that places every dependency
before its dependant; a registered dependency cycle forces the
`Custom("Cycle detected in service dependencies")` error.  The ready-queue
tie-break claimed by the spec (`(priority asc, name asc)`) does not hold:
the code pops the head before re-sorting and its sort key is the priority
alone. -/

/-- Stable insertion permutes to a cons. -/
theorem insertStable_perm (le : String → String → Bool) (a : String) :
    ∀ l : List String, (insertStable le a l).Perm (a :: l)
  | [] => List.Perm.refl _
  | b :: bs => by
    unfold insertStable
    split
    · exact ((insertStable_perm le a bs).cons b).trans (List.Perm.swap a b bs)
    · exact List.Perm.refl _

/-- The stable sort is a permutation of its input. -/
theorem sortByKey_perm (le : String → String → Bool) (l : List String) :
    (sortByKey le l).Perm l := by
  suffices h : ∀ (l acc : List String),
      (l.foldl (fun acc x => insertStable le x acc) acc).Perm (acc ++ l) by
    simpa using h l []
  intro l
  induction l with
  | nil => simp
  | cons x xs ih =>
    intro acc
    rw [List.foldl_cons]
    refine (ih (insertStable le x acc)).trans ?_
    have h1 : (insertStable le x acc ++ xs).Perm ((x :: acc) ++ xs) :=
      (insertStable_perm le x acc).append_right xs
    refine h1.trans ?_
    simp only [List.cons_append]
    exact (List.perm_middle).symm

/-- Keys of the name map after one insert. -/
theorem insertNameMap_keys (m : List (String × ServiceFile)) (k : String) (v : ServiceFile) :
    (insertNameMap m k v).map Prod.fst =
      if m.any (fun p => p.1 = k) then m.map Prod.fst else m.map Prod.fst ++ [k] := by
  unfold insertNameMap
  split
  · simp only [List.map_map]
    congr 1
    funext p
    by_cases h : p.1 = k <;> simp [h]
  · simp

/-- The name-map keys are pairwise distinct. -/
theorem buildNameMap_keys_nodup (svcs : List ServiceFile) :
    ((buildNameMap svcs).map Prod.fst).Nodup := by
  suffices h : ∀ (l : List ServiceFile) (m : List (String × ServiceFile)),
      (m.map Prod.fst).Nodup →
      ((l.foldl (fun m svc => insertNameMap m svc.name svc) m).map Prod.fst).Nodup by
    exact h svcs [] (by simp)
  intro l
  induction l with
  | nil => intro m hm; simpa using hm
  | cons s ss ih =>
    intro m hm
    rw [List.foldl_cons]
    refine ih _ ?_
    rw [insertNameMap_keys]
    split
    · exact hm
    · rename_i hno
      simp only [List.any_eq_true, decide_eq_true_eq, not_exists, not_and] at hno
      refine List.Nodup.append hm (List.nodup_singleton _) ?_
      intro x hx hx2
      simp only [List.mem_singleton] at hx2
      subst hx2
      obtain ⟨p, hp, hpeq⟩ := List.mem_map.mp hx
      exact hno p hp hpeq

/-- Every name-map entry is keyed by the name of its value. -/
theorem buildNameMap_entry (svcs : List ServiceFile) :
    ∀ p ∈ buildNameMap svcs, p.2.name = p.1 := by
  suffices h : ∀ (l : List ServiceFile) (m : List (String × ServiceFile)),
      (∀ p ∈ m, p.2.name = p.1) →
      ∀ p ∈ l.foldl (fun m svc => insertNameMap m svc.name svc) m, p.2.name = p.1 by
    exact h svcs [] (by simp)
  intro l
  induction l with
  | nil => intro m hm; simpa using hm
  | cons s ss ih =>
    intro m hm
    rw [List.foldl_cons]
    refine ih _ ?_
    intro p hp
    unfold insertNameMap at hp
    split at hp
    · rcases List.mem_map.mp hp with ⟨q, hq, rfl⟩
      by_cases h : q.1 = s.name <;> simp [h, hm q hq]
    · rcases List.mem_append.mp hp with h | h
      · exact hm p h
      · simp only [List.mem_singleton] at h
        subst h
        rfl

/-- A looked-up key-value pair is an entry of the map. -/
theorem svcOf_mem (m : List (String × ServiceFile)) (x : String)
    (hx : x ∈ m.map Prod.fst) : (x, svcOf m x) ∈ m := by
  induction m with
  | nil => simp at hx
  | cons p ps ih =>
    by_cases h : p.1 = x
    · unfold svcOf
      rw [List.find?_cons_of_pos _ (by simp [h])]
      dsimp only
      have hxp : ((x, p.2) : String × ServiceFile) = p := by rw [← h]
      rw [hxp]
      exact List.mem_cons_self p ps
    · unfold svcOf
      rw [List.find?_cons_of_neg _ (by simp [h])]
      right
      refine ih ?_
      rcases List.mem_map.mp hx with ⟨q, hq, hqe⟩
      rcases List.mem_cons.mp hq with rfl | hq2
      · exact absurd hqe h
      · exact List.mem_map.mpr ⟨q, hq2, hqe⟩

/-- The descriptor stored under key `x` is named `x`. -/
theorem svcOf_name (svcs : List ServiceFile) (x : String)
    (hx : x ∈ (buildNameMap svcs).map Prod.fst) :
    (svcOf (buildNameMap svcs) x).name = x :=
  buildNameMap_entry svcs (x, svcOf (buildNameMap svcs) x) (svcOf_mem _ x hx)

/-- With pairwise-distinct input names the name map is the input itself (no insert replaces an earlier entry). -/
theorem buildNameMap_distinct (svcs : List ServiceFile)
    (hnd : (svcs.map ServiceFile.name).Nodup) :
    buildNameMap svcs = svcs.map (fun s => (s.name, s)) := by
  suffices h : ∀ (l : List ServiceFile) (m : List (String × ServiceFile)),
      (m.map Prod.fst ++ l.map ServiceFile.name).Nodup →
      l.foldl (fun m svc => insertNameMap m svc.name svc) m =
        m ++ l.map (fun s => (s.name, s)) by
    simpa using h svcs [] (by simpa using hnd)
  intro l
  induction l with
  | nil => intro m _; simp
  | cons s ss ih =>
    intro m hm
    rw [List.foldl_cons]
    have hnotin : ¬ m.any (fun p => p.1 = s.name) := by
      simp only [List.any_eq_true, decide_eq_true_eq, not_exists, not_and]
      intro p hp hpe
      have h1 : s.name ∈ m.map Prod.fst := List.mem_map.mpr ⟨p, hp, hpe⟩
      have h2 : s.name ∈ (s :: ss).map ServiceFile.name := by simp
      exact (List.disjoint_of_nodup_append hm) h1 h2
    have hins : insertNameMap m s.name s = m ++ [(s.name, s)] := by
      unfold insertNameMap
      rw [if_neg hnotin]
    rw [hins, ih (m ++ [(s.name, s)]) (by simpa using hm)]
    simp

/-- With distinct names, looking up an input descriptor by its own name returns it. -/
theorem svcOf_self (svcs : List ServiceFile)
    (hnd : (svcs.map ServiceFile.name).Nodup) :
    ∀ s ∈ svcs, svcOf (svcs.map (fun s => (s.name, s))) s.name = s := by
  induction svcs with
  | nil => simp
  | cons a l ih =>
    intro s hs
    rcases List.mem_cons.mp hs with rfl | hs2
    · unfold svcOf
      rw [List.map_cons, List.find?_cons_of_pos _ (by simp)]
    · have hne : s.name ≠ a.name := by
        intro he
        have h1 : a.name ∈ l.map ServiceFile.name := by
          rw [← he]
          exact List.mem_map.mpr ⟨s, hs2, rfl⟩
        simp only [List.map_cons, List.nodup_cons] at hnd
        exact hnd.1 h1
      unfold svcOf
      rw [List.map_cons, List.find?_cons_of_neg _ (by simp [hne.symm, Ne.symm hne])]
      have := ih (by simp only [List.map_cons, List.nodup_cons] at hnd; exact hnd.2) s hs2
      unfold svcOf at this
      exact this

/-- With distinct names, mapping lookup over the key list reproduces the input list. -/
theorem map_svcOf_self (svcs : List ServiceFile)
    (hnd : (svcs.map ServiceFile.name).Nodup) :
    (svcs.map ServiceFile.name).map (svcOf (buildNameMap svcs)) = svcs := by
  rw [buildNameMap_distinct svcs hnd, List.map_map]
  have h : ∀ s ∈ svcs,
      (svcOf (svcs.map (fun s => (s.name, s))) ∘ ServiceFile.name) s = id s :=
    fun s hs => svcOf_self svcs hnd s hs
  rw [List.map_congr_left h, List.map_id]

/-- Summing the multiplicities of a list over a duplicate-free universe containing all of its elements gives its length. -/
theorem sum_count_eq_length (names : List String) (hnd : names.Nodup) :
    ∀ l : List String, (∀ x ∈ l, x ∈ names) →
      (names.map (fun u => l.count u)).sum = l.length
  | [] => by simp
  | a :: l => fun hsub => by
    have h1 : (names.map (fun u => (a :: l).count u)).sum =
        (names.map (fun u => l.count u)).sum + (names.map (fun u => if a = u then 1 else 0)).sum := by
      rw [← List.sum_map_add]
      refine congrArg List.sum (List.map_congr_left (fun u hu => ?_))
      rw [List.count_cons]
      simp
    have h2 : (names.map (fun u => if a = u then 1 else 0)).sum = 1 := by
      have ha : a ∈ names := hsub a (List.mem_cons_self a l)
      clear hsub h1
      induction names with
      | nil => simp at ha
      | cons b names ih =>
        rcases List.mem_cons.mp ha with rfl | hb
        · simp only [List.map_cons, List.sum_cons, if_pos rfl]
          have : (names.map (fun u => if a = u then 1 else 0)).sum = 0 := by
            rw [List.sum_eq_zero]
            intro x hx
            rcases List.mem_map.mp hx with ⟨u, hu, rfl⟩
            have : a ≠ u := by
              rintro rfl
              exact (List.nodup_cons.mp hnd).1 hu
            simp [this]
          simp [this]
        · have hne : a ≠ b := by
            rintro rfl
            exact (List.nodup_cons.mp hnd).1 hb
          simp only [List.map_cons, List.sum_cons, if_neg hne]
          rw [ih (List.nodup_cons.mp hnd).2 hb]
    rw [h1, h2, sum_count_eq_length names hnd l (fun x hx => hsub x (List.mem_cons_of_mem a hx))]
    simp

/-- Sums of a `Nat`-valued map are monotone along sublists. -/
theorem sublist_sum_le (f : String → Nat) :
    ∀ {l₁ l₂ : List String}, l₁.Sublist l₂ → (l₁.map f).sum ≤ (l₂.map f).sum := by
  intro l₁ l₂ h
  induction h with
  | slnil => simp
  | cons a _ ih => simp only [List.map_cons, List.sum_cons]; omega
  | cons₂ a _ ih => simp only [List.map_cons, List.sum_cons]; omega

/-- Sums of a `Nat`-valued map over a duplicate-free subset are bounded by the sum over the whole list. -/
theorem subset_sum_le (f : String → Nat) (l names : List String)
    (hnd : l.Nodup) (hsub : ∀ x ∈ l, x ∈ names) :
    (l.map f).sum ≤ (names.map f).sum := by
  rcases List.subperm_of_subset hnd hsub with ⟨l', hperm, hsl⟩
  calc (l.map f).sum = (l'.map f).sum := ((hperm.map f).sum_eq).symm
    _ ≤ (names.map f).sum := sublist_sum_le f hsl

/-- Characterisation of the dependency-insertion loop when every dependency is registered: `graph[y]` gains one `name` per occurrence of `y` in the list, and `in_degree[name]` gains the list length. -/
theorem addDeps_ok (names : List String) (name : String) :
    ∀ (deps : List String) (g : String → List String) (d : String → Nat),
      (∀ dep ∈ deps, dep ∈ names) →
      addDeps names name deps (g, d) = Except.ok
        ((fun y => g y ++ List.replicate (deps.count y) name),
         (fun y => if y = name then d y + deps.length else d y))
  | [], g, d, _ => by
    unfold addDeps
    refine congrArg Except.ok (Prod.ext (funext fun y => ?_) (funext fun y => ?_)) <;>
      by_cases h : y = name <;> simp [h]
  | dep :: rest, g, d, h => by
    unfold addDeps
    rw [if_pos (h dep (List.mem_cons_self dep rest))]
    rw [addDeps_ok names name rest _ _ (fun x hx => h x (List.mem_cons_of_mem dep hx))]
    refine congrArg Except.ok (Prod.ext (funext fun y => ?_) (funext fun y => ?_)) <;> dsimp only
    · by_cases hy : y = dep
      · subst hy
        rw [if_pos rfl, List.count_cons_self, List.replicate_succ, List.append_assoc]
        rfl
      · rw [if_neg hy, List.count_cons_of_ne hy]
    · by_cases hy : y = name
      · subst hy
        rw [if_pos rfl, if_pos rfl, if_pos rfl]
        simp only [List.length_cons]
        omega
      · rw [if_neg hy, if_neg hy, if_neg hy]

/-- Characterisation of the whole edge-building fold: `graph[y]` is the concatenation of per-entry replicas and `in_degree[y]` sums the dependency-list lengths of the entries keyed `y`. -/
theorem buildGraph_fold_ok (names : List String) :
    ∀ (es : List (String × ServiceFile)) (g : String → List String) (d : String → Nat),
      (∀ p ∈ es, ∀ dep ∈ p.2.dependencies.getD [], dep ∈ names) →
      es.foldlM (fun st p => addDeps names p.1 (p.2.dependencies.getD []) st) (g, d) =
        Except.ok
          ((fun y => g y ++
             (es.map (fun p =>
               List.replicate ((p.2.dependencies.getD []).count y) p.1)).flatten),
           (fun y => d y +
             ((es.filter (fun p => p.1 = y)).map
               (fun p => (p.2.dependencies.getD []).length)).sum))
  | [], g, d, _ => by
    refine congrArg Except.ok (Prod.ext (funext fun y => ?_) (funext fun y => ?_)) <;> simp
  | p :: es, g, d, h => by
    rw [List.foldlM_cons,
      addDeps_ok names p.1 (p.2.dependencies.getD []) g d
        (h p (List.mem_cons_self p es))]
    show es.foldlM _ _ = _
    rw [buildGraph_fold_ok names es _ _ (fun q hq => h q (List.mem_cons_of_mem p hq))]
    refine congrArg Except.ok (Prod.ext (funext fun y => ?_) (funext fun y => ?_)) <;> dsimp only
    · rw [List.map_cons, List.flatten_cons, ← List.append_assoc]
    · by_cases hy1 : p.1 = y
      · rw [List.filter_cons_of_pos (by simp [hy1]), if_pos hy1.symm]
        simp only [List.map_cons, List.sum_cons]
        omega
      · rw [List.filter_cons_of_neg (by simp [hy1]), if_neg (fun he => hy1 he.symm)]

/-- Master lemma for the neighbour-decrement loop: degrees drop by exactly the multiplicity in the neighbour list (never underflowing under the stated bound), every queued node has degree zero, enqueued nodes are fresh, and the queue stays duplicate-free. -/
theorem processNeighbors_spec (visited : List String) :
    ∀ (ns : List String) (deg : String → Nat) (q : List String),
      (∀ y, ns.count y ≤ deg y) →
      (∀ x ∈ q, deg x = 0) →
      (∀ y, (processNeighbors visited ns deg q).1 y = deg y - ns.count y) ∧
      (∀ x ∈ (processNeighbors visited ns deg q).2,
        (processNeighbors visited ns deg q).1 x = 0 ∧
        (x ∈ q ∨ (x ∈ ns ∧ x ∉ visited ∧ 1 ≤ deg x))) ∧
      (q.Nodup → (processNeighbors visited ns deg q).2.Nodup)
  | [], deg, q, _, hq0 => by
    refine ⟨fun y => by simp [processNeighbors], fun x hx => ?_, fun h => h⟩
    exact ⟨hq0 x hx, Or.inl hx⟩
  | nb :: rest, deg, q, hcnt, hq0 => by
    have hnb1 : 1 ≤ deg nb := le_trans (by rw [List.count_cons_self]; omega) (hcnt nb)
    have hcnt2 : ∀ y, rest.count y ≤ (fun k => if k = nb then deg nb - 1 else deg k) y := by
      intro y
      by_cases hy : y = nb
      · subst hy
        have := hcnt y
        rw [List.count_cons_self] at this
        dsimp only
        rw [if_pos rfl]
        omega
      · have := hcnt y
        rw [List.count_cons_of_ne hy] at this
        simpa [hy] using this
    have hnbq : nb ∉ q := fun hin => by
      have := hq0 nb hin
      omega
    set d := deg nb - 1 with hd
    set deg2 := fun k => if k = nb then d else deg k with hdeg2
    set q2 := if d = 0 ∧ nb ∉ visited then q ++ [nb] else q with hq2
    have hq02 : ∀ x ∈ q2, deg2 x = 0 := by
      intro x hx
      rw [hq2] at hx
      split at hx
      · rcases List.mem_append.mp hx with hx | hx
        · have hxnb : x ≠ nb := fun he => hnbq (he ▸ hx)
          simp only [hdeg2, if_neg hxnb]
          exact hq0 x hx
        · simp only [List.mem_singleton] at hx
          subst hx
          simp only [hdeg2, if_pos rfl]
          rename_i hcond
          exact hcond.1
      · have hxnb : x ≠ nb := fun he => hnbq (he ▸ hx)
        simp only [hdeg2, if_neg hxnb]
        exact hq0 x hx
    obtain ⟨ih1, ih2, ih3⟩ := processNeighbors_spec visited rest deg2 q2 hcnt2 hq02
    have hunf : processNeighbors visited (nb :: rest) deg q =
        processNeighbors visited rest deg2 q2 := by
      rw [processNeighbors]
    refine ⟨fun y => ?_, fun x hx => ?_, fun hnd => ?_⟩
    · rw [hunf, ih1 y]
      by_cases hy : y = nb
      · subst hy
        simp only [hdeg2, if_pos rfl, hd, List.count_cons_self]
        omega
      · simp only [hdeg2, if_neg hy, List.count_cons_of_ne hy]
    · rw [hunf] at hx ⊢
      obtain ⟨hz, hprov⟩ := ih2 x hx
      refine ⟨hz, ?_⟩
      rcases hprov with hxq2 | ⟨hxrest, hxv, hxd⟩
      · rw [hq2] at hxq2
        split at hxq2
        · rcases List.mem_append.mp hxq2 with hx2 | hx2
          · exact Or.inl hx2
          · simp only [List.mem_singleton] at hx2
            subst hx2
            rename_i hcond
            exact Or.inr ⟨List.mem_cons_self _ _, hcond.2, hnb1⟩
        · exact Or.inl hxq2
      · refine Or.inr ⟨List.mem_cons_of_mem nb hxrest, hxv, ?_⟩
        by_cases hy : x = nb
        · subst hy; exact hnb1
        · simp only [hdeg2, if_neg hy] at hxd
          exact hxd
    · rw [hunf]
      refine ih3 ?_
      rw [hq2]
      split
      · exact List.Nodup.append hnd (List.nodup_singleton _)
          (fun x hx hx2 => by
            simp only [List.mem_singleton] at hx2
            subst hx2
            exact hnbq hx)
      · exact hnd

/-- The dependent-adjacency map `graph` that the edge loop builds: `graphOf nm y` lists, per entry, one copy of the dependent name for each occurrence of `y` in its dependency list. -/
def graphOf (nm : List (String × ServiceFile)) (y : String) : List String :=
  (nm.map (fun p => List.replicate ((p.2.dependencies.getD []).count y) p.1)).flatten

/-- The `in_degree` map the edge loop builds. -/
def indegOf (nm : List (String × ServiceFile)) (y : String) : Nat :=
  ((nm.filter (fun p => p.1 = y)).map (fun p => (p.2.dependencies.getD []).length)).sum

/-- With every dependency registered, `buildGraph` succeeds and returns exactly `graphOf`/`indegOf`. -/
theorem buildGraph_ok (nm : List (String × ServiceFile)) (names : List String)
    (hreg : ∀ p ∈ nm, ∀ dep ∈ p.2.dependencies.getD [], dep ∈ names) :
    buildGraph nm names = Except.ok (graphOf nm, indegOf nm) := by
  unfold buildGraph
  rw [buildGraph_fold_ok names nm _ _ hreg]
  refine congrArg Except.ok (Prod.ext (funext fun y => ?_) (funext fun y => ?_)) <;>
    simp [graphOf, indegOf]

/-- Filtering a duplicate-free-keyed map by the key of one of its entries yields exactly that entry. -/
theorem filter_key_single (nm : List (String × ServiceFile))
    (hnd : (nm.map Prod.fst).Nodup) (p : String × ServiceFile) (hp : p ∈ nm) :
    nm.filter (fun q => q.1 = p.1) = [p] := by
  induction nm with
  | nil => simp at hp
  | cons a l ih =>
    rcases List.mem_cons.mp hp with rfl | hp2
    · rw [List.filter_cons_of_pos (by simp)]
      have : l.filter (fun q => q.1 = p.1) = [] := by
        rw [List.filter_eq_nil_iff]
        intro q hq
        simp only [decide_eq_true_eq]
        intro he
        have h1 : p.1 ∈ l.map Prod.fst := List.mem_map.mpr ⟨q, hq, he⟩
        exact (List.nodup_cons.mp (by simpa using hnd)).1 h1
      rw [this]
    · have hne : a.1 ≠ p.1 := by
        intro he
        have h1 : a.1 ∈ l.map Prod.fst := by
          rw [he]
          exact List.mem_map.mpr ⟨p, hp2, rfl⟩
        exact (List.nodup_cons.mp (by simpa using hnd)).1 h1
      rw [List.filter_cons_of_neg (by simp [hne])]
      exact ih (by simpa using (List.nodup_cons.mp (by simpa using hnd)).2) hp2

/-- Filtering by an absent key yields nothing. -/
theorem filter_key_nil (nm : List (String × ServiceFile)) (y : String)
    (hy : y ∉ nm.map Prod.fst) : nm.filter (fun q => q.1 = y) = [] := by
  rw [List.filter_eq_nil_iff]
  intro q hq
  simp only [decide_eq_true_eq]
  intro he
  exact hy (List.mem_map.mpr ⟨q, hq, he⟩)

/-- Multiplicity of a dependent in an adjacency list, as a sum over entries. -/
theorem count_graphOf (nm : List (String × ServiceFile)) (n y : String) :
    (graphOf nm y).count n =
      ((nm.filter (fun p => p.1 = n)).map
        (fun p => (p.2.dependencies.getD []).count y)).sum := by
  induction nm with
  | nil => simp [graphOf]
  | cons p l ih =>
    unfold graphOf at ih ⊢
    rw [List.map_cons, List.flatten_cons, List.count_append, ih, List.count_replicate]
    by_cases hp : p.1 = n
    · rw [List.filter_cons_of_pos (by simp [hp])]
      simp [hp]
    · rw [List.filter_cons_of_neg (by simp [hp])]
      simp [hp]

/-- Every adjacency-list element is a registered name. -/
theorem mem_graphOf (nm : List (String × ServiceFile)) (y x : String)
    (hx : x ∈ graphOf nm y) : x ∈ nm.map Prod.fst := by
  unfold graphOf at hx
  rcases List.mem_flatten.mp hx with ⟨l, hl, hxl⟩
  rcases List.mem_map.mp hl with ⟨p, hp, rfl⟩
  rw [List.eq_of_mem_replicate hxl]
  exact List.mem_map.mpr ⟨p, hp, rfl⟩

/-- Number of already-processed incoming edge occurrences of `y`: one per occurrence of `y` in the adjacency list of each emitted node. -/
def processedK (G : String → List String) (ordered : List String) (y : String) : Nat :=
  (ordered.map (fun u => (G u).count y)).sum

/-- Processing every registered node accounts for the full in-degree. -/
theorem processedK_names (nm : List (String × ServiceFile))
    (hnd : (nm.map Prod.fst).Nodup)
    (hreg : ∀ p ∈ nm, ∀ dep ∈ p.2.dependencies.getD [], dep ∈ nm.map Prod.fst)
    (n : String) (hn : n ∈ nm.map Prod.fst) :
    processedK (graphOf nm) (nm.map Prod.fst) n = indegOf nm n := by
  unfold processedK
  have hmem : (n, svcOf nm n) ∈ nm := svcOf_mem nm n hn
  have h1 : ∀ u ∈ nm.map Prod.fst,
      (graphOf nm u).count n = ((svcOf nm n).dependencies.getD []).count u := by
    intro u _
    rw [count_graphOf, filter_key_single nm hnd (n, svcOf nm n) hmem]
    simp
  rw [List.map_congr_left h1]
  rw [sum_count_eq_length _ hnd _ (hreg (n, svcOf nm n) hmem)]
  unfold indegOf
  rw [filter_key_single nm hnd (n, svcOf nm n) hmem]
  simp

/-- For a registered name, the multiplicity in an adjacency list is the multiplicity of the source in its dependency list. -/
theorem count_graphOf_key (nm : List (String × ServiceFile))
    (hnd : (nm.map Prod.fst).Nodup) (n : String) (hn : n ∈ nm.map Prod.fst)
    (y : String) :
    (graphOf nm y).count n = ((svcOf nm n).dependencies.getD []).count y := by
  rw [count_graphOf, filter_key_single nm hnd (n, svcOf nm n) (svcOf_mem nm n hn)]
  simp

theorem deps_in_ordered (nm : List (String × ServiceFile))
    (hnd : (nm.map Prod.fst).Nodup)
    (hreg : ∀ p ∈ nm, ∀ dep ∈ p.2.dependencies.getD [], dep ∈ nm.map Prod.fst)
    (ordered : List String) (hond : ordered.Nodup)
    (hosub : ∀ x ∈ ordered, x ∈ nm.map Prod.fst)
    (n : String) (hn : n ∈ nm.map Prod.fst)
    (hproc : indegOf nm n ≤ processedK (graphOf nm) ordered n) :
    ∀ d ∈ (svcOf nm n).dependencies.getD [], d ∈ ordered := by
  intro d hd
  by_contra hdo
  have hdk : d ∈ nm.map Prod.fst := hreg (n, svcOf nm n) (svcOf_mem nm n hn) d hd
  have hnd2 : (ordered ++ [d]).Nodup :=
    List.Nodup.append hond (List.nodup_singleton _)
      (fun x hx hx2 => by
        simp only [List.mem_singleton] at hx2
        subst hx2
        exact hdo hx)
  have hsub2 : ∀ x ∈ ordered ++ [d], x ∈ nm.map Prod.fst := by
    intro x hx
    rcases List.mem_append.mp hx with hx | hx
    · exact hosub x hx
    · simp only [List.mem_singleton] at hx
      subst hx
      exact hdk
  have hle : processedK (graphOf nm) (ordered ++ [d]) n ≤
      processedK (graphOf nm) (nm.map Prod.fst) n :=
    subset_sum_le _ _ _ hnd2 hsub2
  have heq : processedK (graphOf nm) (ordered ++ [d]) n =
      processedK (graphOf nm) ordered n + (graphOf nm d).count n := by
    unfold processedK
    rw [List.map_append, List.sum_append]
    simp
  have hcount : 1 ≤ (graphOf nm d).count n := by
    rw [count_graphOf_key nm hnd n hn d]
    exact List.count_pos_iff.mpr hd
  have hfin := processedK_names nm hnd hreg n hn
  omega

/-- Unregistered names never occur in adjacency lists. -/
theorem count_graphOf_nonkey (nm : List (String × ServiceFile)) (y : String)
    (hy : y ∉ nm.map Prod.fst) (u : String) : (graphOf nm u).count y = 0 := by
  rw [count_graphOf, filter_key_nil nm y hy]
  rfl

/-- Processed incoming edges never exceed the in-degree, for any duplicate-free emitted set. -/
theorem processedK_le (nm : List (String × ServiceFile))
    (hnd : (nm.map Prod.fst).Nodup)
    (hreg : ∀ p ∈ nm, ∀ dep ∈ p.2.dependencies.getD [], dep ∈ nm.map Prod.fst)
    (ordered : List String) (hond : ordered.Nodup)
    (hosub : ∀ x ∈ ordered, x ∈ nm.map Prod.fst) (y : String) :
    processedK (graphOf nm) ordered y ≤ indegOf nm y := by
  by_cases hy : y ∈ nm.map Prod.fst
  · calc processedK (graphOf nm) ordered y
        ≤ processedK (graphOf nm) (nm.map Prod.fst) y := subset_sum_le _ _ _ hond hosub
      _ = indegOf nm y := processedK_names nm hnd hreg y hy
  · unfold processedK
    have : ∀ u ∈ ordered, (graphOf nm u).count y = 0 :=
      fun u _ => count_graphOf_nonkey nm y hy u
    rw [List.sum_eq_zero]
    · omega
    · intro x hx
      rcases List.mem_map.mp hx with ⟨u, hu, rfl⟩
      exact this u hu

/-- Loop invariant of the modelled Kahn iteration: `ordered ++ queue` is duplicate-free within the registered names, the visited set tracks the emitted set, every stored degree counts exactly the unprocessed incoming edge occurrences, queued nodes have degree zero, and every emitted node is preceded by its registered dependencies. -/
structure KahnInv (nm : List (String × ServiceFile)) (st : KahnSt) : Prop where
  nodupOQ : (st.ordered ++ st.queue).Nodup
  subOQ : ∀ x ∈ st.ordered ++ st.queue, x ∈ nm.map Prod.fst
  visEq : ∀ x, x ∈ st.visited ↔ x ∈ st.ordered
  degEq : ∀ y, st.deg y = indegOf nm y - processedK (graphOf nm) st.ordered y
  qZero : ∀ x ∈ st.queue, st.deg x = 0
  top : ∀ p1 x p2, st.ordered = p1 ++ x :: p2 →
    ∀ d ∈ (svcOf nm x).dependencies.getD [], d ∈ p1

/-- Decompositions of `l ++ [a]` either end at `a` or live inside `l`. -/
theorem append_singleton_eq (ordered p1 : List String) (x name : String)
    (p2 : List String) (h : ordered ++ [name] = p1 ++ x :: p2) :
    (p1 = ordered ∧ x = name ∧ p2 = []) ∨
    (∃ p2', p2 = p2' ++ [name] ∧ ordered = p1 ++ x :: p2') := by
  rcases p2.eq_nil_or_concat with rfl | ⟨p2', b, rfl⟩
  · left
    have := List.append_inj' h (by simp)
    exact ⟨this.1.symm, (by simpa using this.2.symm), rfl⟩
  · right
    rw [List.concat_eq_append] at h ⊢
    rw [show p1 ++ x :: (p2' ++ [b]) = (p1 ++ x :: p2') ++ [b] by simp] at h
    have := List.append_inj' h (by simp)
    refine ⟨p2', by rw [(by simpa using this.2 : name = b)], this.1⟩

/-- One Kahn iteration preserves the invariant and appends the popped name to the emitted order. -/
theorem kahnStep_inv (nm : List (String × ServiceFile))
    (hnd : (nm.map Prod.fst).Nodup)
    (hreg : ∀ p ∈ nm, ∀ dep ∈ p.2.dependencies.getD [], dep ∈ nm.map Prod.fst)
    (prio : String → Int) (st : KahnSt) (name : String) (rest : List String)
    (hq : st.queue = name :: rest) (hinv : KahnInv nm st) :
    KahnInv nm (kahnStep (graphOf nm) prio st name rest) ∧
    (kahnStep (graphOf nm) prio st name rest).ordered = st.ordered ++ [name] := by
  obtain ⟨hnodup, hsub, hvis, hdeg, hqz, htop⟩ := hinv
  rw [hq] at hnodup hsub hqz
  have hordnd : st.ordered.Nodup := hnodup.of_append_left
  have hqnd : (name :: rest).Nodup := hnodup.of_append_right
  have hdisj := List.disjoint_of_nodup_append hnodup
  have hnameq : name ∈ name :: rest := List.mem_cons_self name rest
  have hnameo : name ∉ st.ordered := fun hin => hdisj hin hnameq
  have hnamek : name ∈ nm.map Prod.fst := hsub name (by simp)
  have hordsub : ∀ x ∈ st.ordered, x ∈ nm.map Prod.fst :=
    fun x hx => hsub x (List.mem_append_left _ hx)
  have hord2nd : (st.ordered ++ [name]).Nodup :=
    List.Nodup.append hordnd (List.nodup_singleton _)
      (fun x hx hx2 => by
        simp only [List.mem_singleton] at hx2
        subst hx2
        exact hnameo hx)
  have hord2sub : ∀ x ∈ st.ordered ++ [name], x ∈ nm.map Prod.fst := by
    intro x hx
    rcases List.mem_append.mp hx with hx | hx
    · exact hordsub x hx
    · simp only [List.mem_singleton] at hx
      subst hx
      exact hnamek
  have hproc2 : ∀ y, processedK (graphOf nm) (st.ordered ++ [name]) y =
      processedK (graphOf nm) st.ordered y + (graphOf nm name).count y := by
    intro y
    unfold processedK
    rw [List.map_append, List.sum_append]
    simp
  have hprocle : ∀ y, processedK (graphOf nm) st.ordered y ≤ indegOf nm y :=
    processedK_le nm hnd hreg st.ordered hordnd hordsub
  have hproc2le : ∀ y, processedK (graphOf nm) (st.ordered ++ [name]) y ≤ indegOf nm y :=
    processedK_le nm hnd hreg _ hord2nd hord2sub
  have hcnt : ∀ y, (graphOf nm name).count y ≤ st.deg y := by
    intro y
    have h2 := hproc2 y
    have h3 := hproc2le y
    have h4 := hdeg y
    omega
  have hq0 : ∀ x ∈ rest, st.deg x = 0 :=
    fun x hx => hqz x (List.mem_cons_of_mem name hx)
  set visited2 := if name ∈ st.visited then st.visited else st.visited ++ [name] with hv2
  have hvis2 : ∀ x, x ∈ visited2 ↔ x ∈ st.ordered ++ [name] := by
    intro x
    rw [hv2]
    by_cases hn : name ∈ st.visited
    · rw [if_pos hn]
      rw [List.mem_append, List.mem_singleton, hvis x]
      constructor
      · exact Or.inl
      · rintro (hx | rfl)
        · exact hx
        · exact (hvis x).mp hn
    · rw [if_neg hn]
      simp [List.mem_append, hvis x]
  obtain ⟨ih1, ih2, ih3⟩ := processNeighbors_spec visited2 (graphOf nm name) st.deg rest
    hcnt hq0
  have hstep : kahnStep (graphOf nm) prio st name rest =
      { queue := sortByKey (fun a b => prio a ≤ prio b)
          (processNeighbors visited2 (graphOf nm name) st.deg rest).2
        deg := (processNeighbors visited2 (graphOf nm name) st.deg rest).1
        visited := visited2
        ordered := st.ordered ++ [name] } := rfl
  rw [hstep]
  set pn := processNeighbors visited2 (graphOf nm name) st.deg rest with hpn
  have hqperm := sortByKey_perm (fun a b => prio a ≤ prio b) pn.2
  have hqmem : ∀ x, x ∈ sortByKey (fun a b => prio a ≤ prio b) pn.2 ↔ x ∈ pn.2 :=
    fun x => hqperm.mem_iff
  have hq2prov : ∀ x ∈ pn.2, x ∈ rest ∨
      (x ∈ graphOf nm name ∧ x ∉ visited2 ∧ 1 ≤ st.deg x) :=
    fun x hx => (ih2 x hx).2
  have hq2sub : ∀ x ∈ pn.2, x ∈ nm.map Prod.fst := by
    intro x hx
    rcases hq2prov x hx with hx2 | ⟨hx2, _, _⟩
    · exact hsub x (List.mem_append_right _ (List.mem_cons_of_mem name hx2))
    · exact mem_graphOf nm name x hx2
  have hq2no : ∀ x ∈ pn.2, x ∉ st.ordered ++ [name] := by
    intro x hx hxo
    rcases hq2prov x hx with hx2 | ⟨_, hx2, _⟩
    · rcases List.mem_append.mp hxo with hxo | hxo
      · exact hdisj hxo (List.mem_cons_of_mem name hx2)
      · simp only [List.mem_singleton] at hxo
        subst hxo
        exact (List.nodup_cons.mp hqnd).1 hx2
    · exact hx2 ((hvis2 x).mpr hxo)
  refine ⟨⟨?_, ?_, ?_, ?_, ?_, ?_⟩, rfl⟩
  · refine List.Nodup.append hord2nd (hqperm.nodup_iff.mpr (ih3 (List.nodup_cons.mp hqnd).2)) ?_
    intro x hx hxq
    exact hq2no x ((hqmem x).mp hxq) hx
  · intro x hx
    rcases List.mem_append.mp hx with hx | hx
    · exact hord2sub x hx
    · exact hq2sub x ((hqmem x).mp hx)
  · exact hvis2
  · intro y
    dsimp only
    rw [ih1 y, hproc2 y, hdeg y]
    omega
  · intro x hx
    dsimp only at hx ⊢
    exact (ih2 x ((hqmem x).mp hx)).1
  · intro p1 x p2 hdec d hd
    rcases append_singleton_eq st.ordered p1 x name p2 hdec with ⟨rfl, rfl, rfl⟩ | ⟨p2', _, hdec2⟩
    · have hqz0 : st.deg x = 0 := hqz x (List.mem_cons_self x rest)
      have : indegOf nm x ≤ processedK (graphOf nm) st.ordered x := by
        have := hdeg x
        have := hprocle x
        omega
      exact deps_in_ordered nm hnd hreg st.ordered hordnd hordsub x hnamek this d hd
    · exact htop p1 x p2' hdec2 d hd

/-- The Kahn loop preserves the invariant for any fuel. -/
theorem kahnLoop_inv (nm : List (String × ServiceFile))
    (hnd : (nm.map Prod.fst).Nodup)
    (hreg : ∀ p ∈ nm, ∀ dep ∈ p.2.dependencies.getD [], dep ∈ nm.map Prod.fst)
    (prio : String → Int) :
    ∀ (fuel : Nat) (st : KahnSt), KahnInv nm st →
      KahnInv nm (kahnLoop (graphOf nm) prio fuel st)
  | 0, st, hinv => hinv
  | fuel + 1, st, hinv => by
    rw [kahnLoop]
    cases hq : st.queue with
    | nil => exact hinv
    | cons name rest =>
      exact kahnLoop_inv nm hnd hreg prio fuel _
        (kahnStep_inv nm hnd hreg prio st name rest hq hinv).1

/-- A successful dependency-insertion loop had every dependency registered. -/
theorem addDeps_reg (names : List String) (name : String) :
    ∀ (deps : List String) (st : (String → List String) × (String → Nat)) (out),
      addDeps names name deps st = Except.ok out → ∀ dep ∈ deps, dep ∈ names
  | [], _, _, _ => by intro x hx; simp at hx
  | dep :: rest, st, out, h => by
    rcases st with ⟨g, d⟩
    unfold addDeps at h
    split at h
    · intro x hx
      rcases List.mem_cons.mp hx with rfl | hx2
      · assumption
      · exact addDeps_reg names name rest _ out h x hx2
    · exact absurd h (by simp)

/-- A successful edge-building fold had every dependency of every entry registered. -/
theorem buildGraph_reg (names : List String) :
    ∀ (es : List (String × ServiceFile)) (st : (String → List String) × (String → Nat)) out,
      es.foldlM (fun st p => addDeps names p.1 (p.2.dependencies.getD []) st) st =
        Except.ok out →
      ∀ p ∈ es, ∀ dep ∈ p.2.dependencies.getD [], dep ∈ names
  | [], _, _, _ => by intro p hp; simp at hp
  | p :: es, st, out, h => by
    rw [List.foldlM_cons] at h
    cases ha : addDeps names p.1 (p.2.dependencies.getD []) st with
    | error e =>
      rw [ha] at h
      simp only [bind, Except.bind] at h
      exact absurd h (by simp)
    | ok st2 =>
      rw [ha] at h
      intro q hq
      rcases List.mem_cons.mp hq with rfl | hq2
      · exact addDeps_reg names q.1 _ st st2 ha
      · exact buildGraph_reg names es st2 out h q hq2

/-- Every `Ok` result of `order_services` comes from an invariant-satisfying final loop state that emitted all registered names. -/
theorem order_services_ok_spec (svcs : List ServiceFile) (out : List ServiceFile)
    (h : order_services svcs = Except.ok out) :
    ∃ st : KahnSt,
      (∀ p ∈ buildNameMap svcs, ∀ dep ∈ p.2.dependencies.getD [],
        dep ∈ (buildNameMap svcs).map Prod.fst) ∧
      KahnInv (buildNameMap svcs) st ∧
      st.ordered.length = ((buildNameMap svcs).map Prod.fst).length ∧
      out = st.ordered.map (svcOf (buildNameMap svcs)) := by
  simp only [order_services] at h
  cases hbg : buildGraph (buildNameMap svcs) ((buildNameMap svcs).map Prod.fst) with
  | error e =>
    rw [hbg] at h
    exact absurd h (by simp)
  | ok gd =>
    rw [hbg] at h
    have hreg : ∀ p ∈ buildNameMap svcs, ∀ dep ∈ p.2.dependencies.getD [],
        dep ∈ (buildNameMap svcs).map Prod.fst := by
      have hbg3 := hbg
      unfold buildGraph at hbg3
      exact buildGraph_reg _ _ _ gd hbg3
    have hbg2 := buildGraph_ok (buildNameMap svcs) ((buildNameMap svcs).map Prod.fst) hreg
    rw [hbg] at hbg2
    have hgd : gd = (graphOf (buildNameMap svcs), indegOf (buildNameMap svcs)) :=
      Except.ok.inj hbg2
    subst hgd
    simp only at h
    have hinv0 : KahnInv (buildNameMap svcs)
        { queue := ((buildNameMap svcs).map Prod.fst).filter
            (fun n => indegOf (buildNameMap svcs) n = 0)
          deg := indegOf (buildNameMap svcs)
          visited := []
          ordered := [] } := by
      refine ⟨?_, ?_, ?_, ?_, ?_, ?_⟩
      · simpa using (buildNameMap_keys_nodup svcs).filter _
      · intro x hx
        simp only [List.nil_append] at hx
        exact (List.mem_filter.mp hx).1
      · intro x
        simp
      · intro y
        simp [processedK]
      · intro x hx
        have := (List.mem_filter.mp hx).2
        simpa using this
      · intro p1 x p2 hdec
        exact absurd hdec (by simp)
    have hinv := kahnLoop_inv (buildNameMap svcs) (buildNameMap_keys_nodup svcs) hreg
      (fun n => (svcOf (buildNameMap svcs) n).priority.getD 50)
      ((buildNameMap svcs).map Prod.fst).length _ hinv0
    split at h
    · refine ⟨_, hreg, hinv, by assumption, (Except.ok.inj h).symm⟩
    · exact absurd h (by simp)

/-- Claim C10: for pairwise-distinct input names, an `Ok` result of
`order_services` is a permutation of the input — nothing is lost or
duplicated. -/
theorem order_services_permutation (svcs out : List ServiceFile)
    (hnd : (svcs.map ServiceFile.name).Nodup)
    (h : order_services svcs = Except.ok out) : out.Perm svcs := by
  obtain ⟨st, hreg, hinv, hlen, hout⟩ := order_services_ok_spec svcs out h
  have hordnd : st.ordered.Nodup := hinv.nodupOQ.of_append_left
  have hordsub : ∀ x ∈ st.ordered, x ∈ (buildNameMap svcs).map Prod.fst :=
    fun x hx => hinv.subOQ x (List.mem_append_left _ hx)
  obtain ⟨l, hlp, hls⟩ := List.subperm_of_subset hordnd hordsub
  have hleq : l = (buildNameMap svcs).map Prod.fst := by
    refine List.Sublist.eq_of_length hls ?_
    rw [hlp.length_eq, hlen]
  have hperm : st.ordered.Perm ((buildNameMap svcs).map Prod.fst) := by
    rw [← hleq]
    exact hlp.symm
  have hnameseq : (buildNameMap svcs).map Prod.fst = svcs.map ServiceFile.name := by
    rw [buildNameMap_distinct svcs hnd, List.map_map]
    rfl
  rw [hout]
  refine (hperm.map (svcOf (buildNameMap svcs))).trans ?_
  rw [hnameseq, map_svcOf_self svcs hnd]

/-- Claim C3, amended: whenever `order_services` returns an order, every
dependency appears strictly before its dependant. -/
theorem order_services_dependency_before (svcs out : List ServiceFile)
    (h : order_services svcs = Except.ok out) (a b : ServiceFile)
    (ha : a ∈ out) (hb : b ∈ out) (hdep : a.name ∈ b.dependencies.getD []) :
    ∃ l1 l2 l3, out = l1 ++ a :: l2 ++ b :: l3 := by
  obtain ⟨st, hreg, hinv, hlen, hout⟩ := order_services_ok_spec svcs out h
  subst hout
  rcases List.mem_map.mp hb with ⟨y, hy, rfl⟩
  rcases List.mem_map.mp ha with ⟨x, hx, rfl⟩
  have hysub : y ∈ (buildNameMap svcs).map Prod.fst :=
    hinv.subOQ y (List.mem_append_left _ hy)
  have hxsub : x ∈ (buildNameMap svcs).map Prod.fst :=
    hinv.subOQ x (List.mem_append_left _ hx)
  have hxname : (svcOf (buildNameMap svcs) x).name = x := svcOf_name svcs x hxsub
  rw [hxname] at hdep
  obtain ⟨p1, p2, hdec⟩ := List.append_of_mem hy
  have hxp1 : x ∈ p1 := hinv.top p1 y p2 hdec x hdep
  obtain ⟨l1, l2, hdec2⟩ := List.append_of_mem hxp1
  refine ⟨l1.map (svcOf (buildNameMap svcs)), l2.map (svcOf (buildNameMap svcs)),
    p2.map (svcOf (buildNameMap svcs)), ?_⟩
  rw [hdec, hdec2]
  simp

/-- In a duplicate-free list, anything in the part before `x` has a smaller index than `x`. -/
theorem indexOf_before : ∀ (p1 : List String) (x : String) (p2 : List String) (d : String),
    (p1 ++ x :: p2).Nodup → d ∈ p1 →
    (p1 ++ x :: p2).indexOf d < (p1 ++ x :: p2).indexOf x
  | [], x, p2, d, _, hd => by simp at hd
  | a :: p1, x, p2, d, hnd, hd => by
    have hax : x ≠ a := by
      intro he
      subst he
      exact (List.nodup_cons.mp hnd).1 (by simp)
    by_cases hda : d = a
    · subst hda
      rw [List.cons_append, List.indexOf_cons_self, List.indexOf_cons_ne _ (Ne.symm hax)]
      omega
    · rw [List.cons_append, List.indexOf_cons_ne _ (Ne.symm hda),
        List.indexOf_cons_ne _ (Ne.symm hax)]
      have := indexOf_before p1 x p2 d (List.nodup_cons.mp hnd).2
        (by rcases List.mem_cons.mp hd with rfl | hd2
            · exact absurd rfl hda
            · exact hd2)
      omega

/-- With every dependency registered, `order_services` runs the Kahn loop to an invariant-satisfying state and returns its emitted order, or the cycle error when not all names were emitted. -/
theorem order_services_run (svcs : List ServiceFile)
    (hreg : ∀ p ∈ buildNameMap svcs, ∀ dep ∈ p.2.dependencies.getD [],
      dep ∈ (buildNameMap svcs).map Prod.fst) :
    ∃ st : KahnSt, KahnInv (buildNameMap svcs) st ∧
      order_services svcs =
        (if st.ordered.length = ((buildNameMap svcs).map Prod.fst).length
         then Except.ok (st.ordered.map (svcOf (buildNameMap svcs)))
         else Except.error
           (BloomError.Custom "Cycle detected in service dependencies")) := by
  have hinv0 : KahnInv (buildNameMap svcs)
      { queue := ((buildNameMap svcs).map Prod.fst).filter
          (fun n => indegOf (buildNameMap svcs) n = 0)
        deg := indegOf (buildNameMap svcs)
        visited := []
        ordered := [] } := by
    refine ⟨?_, ?_, ?_, ?_, ?_, ?_⟩
    · simpa using (buildNameMap_keys_nodup svcs).filter _
    · intro x hx
      simp only [List.nil_append] at hx
      exact (List.mem_filter.mp hx).1
    · intro x
      simp
    · intro y
      simp [processedK]
    · intro x hx
      have := (List.mem_filter.mp hx).2
      simpa using this
    · intro p1 x p2 hdec
      exact absurd hdec (by simp)
  have hinv := kahnLoop_inv (buildNameMap svcs) (buildNameMap_keys_nodup svcs) hreg
    (fun n => (svcOf (buildNameMap svcs) n).priority.getD 50)
    ((buildNameMap svcs).map Prod.fst).length _ hinv0
  refine ⟨_, hinv, ?_⟩
  simp only [order_services]
  rw [buildGraph_ok (buildNameMap svcs) ((buildNameMap svcs).map Prod.fst) hreg]

/-- When the emitted order has full length it contains every registered name. -/
theorem ordered_complete (svcs : List ServiceFile) (st : KahnSt)
    (hinv : KahnInv (buildNameMap svcs) st)
    (hlen : st.ordered.length = ((buildNameMap svcs).map Prod.fst).length) :
    ∀ x ∈ (buildNameMap svcs).map Prod.fst, x ∈ st.ordered := by
  have hordnd : st.ordered.Nodup := hinv.nodupOQ.of_append_left
  have hordsub : ∀ x ∈ st.ordered, x ∈ (buildNameMap svcs).map Prod.fst :=
    fun x hx => hinv.subOQ x (List.mem_append_left _ hx)
  obtain ⟨l, hlp, hls⟩ := List.subperm_of_subset hordnd hordsub
  have hleq : l = (buildNameMap svcs).map Prod.fst := by
    refine List.Sublist.eq_of_length hls ?_
    rw [hlp.length_eq, hlen]
  intro x hx
  exact hlp.mem_iff.mp (hleq ▸ hx)

/-- Claim C8, amended: a registered dependency cycle (each node of `cyc`
depends on its cyclic successor) makes `order_services` fail with
`BloomError::Custom("Cycle detected in service dependencies")` — it never
returns an order (and `load_services`, which pipes its parsed descriptors
straight through `order_services`, then starts nothing). -/
theorem order_services_cycle_detected (svcs : List ServiceFile) (cyc : List String)
    (hpos : 0 < cyc.length)
    (hreg : ∀ p ∈ buildNameMap svcs, ∀ dep ∈ p.2.dependencies.getD [],
      dep ∈ (buildNameMap svcs).map Prod.fst)
    (hmem : ∀ x ∈ cyc, x ∈ (buildNameMap svcs).map Prod.fst)
    (hcyc : ∀ i : Fin cyc.length,
      cyc.get ⟨((i : Nat) + 1) % cyc.length, Nat.mod_lt _ hpos⟩ ∈
        (svcOf (buildNameMap svcs) (cyc.get i)).dependencies.getD []) :
    order_services svcs = Except.error
      (BloomError.Custom "Cycle detected in service dependencies") := by
  obtain ⟨st, hinv, hrun⟩ := order_services_run svcs hreg
  rw [hrun]
  rw [if_neg ?_]
  intro hlen
  have hcomp := ordered_complete svcs st hinv hlen
  have hordnd : st.ordered.Nodup := hinv.nodupOQ.of_append_left
  have hstep : ∀ i : Fin cyc.length,
      st.ordered.indexOf (cyc.get ⟨((i : Nat) + 1) % cyc.length, Nat.mod_lt _ hpos⟩) <
        st.ordered.indexOf (cyc.get i) := by
    intro i
    have hyo : cyc.get i ∈ st.ordered := hcomp _ (hmem _ (cyc.get_mem i i.isLt))
    obtain ⟨p1, p2, hdec⟩ := List.append_of_mem hyo
    have hdp1 : cyc.get ⟨((i : Nat) + 1) % cyc.length, Nat.mod_lt _ hpos⟩ ∈ p1 :=
      hinv.top p1 (cyc.get i) p2 hdec _ (hcyc i)
    rw [hdec]
    exact indexOf_before p1 (cyc.get i) p2 _ (hdec ▸ hordnd) hdp1
  obtain ⟨i0, _, hmin⟩ := Finset.exists_min_image Finset.univ
    (fun i : Fin cyc.length => st.ordered.indexOf (cyc.get i))
    ⟨⟨0, hpos⟩, Finset.mem_univ _⟩
  exact absurd (hstep i0)
    (not_lt.mpr (hmin ⟨((i0 : Nat) + 1) % cyc.length, Nat.mod_lt _ hpos⟩
      (Finset.mem_univ _)))

/-- Sample descriptors for the orderer claims. -/
def svcA : ServiceFile := ServiceFile.new "a" "/bin/a"

/-- Second sample descriptor. -/
def svcB : ServiceFile := ServiceFile.new "b" "/bin/b"

/-- Descriptor `b` depending on `a`. -/
def svcBdepA : ServiceFile :=
  { ServiceFile.new "b" "/bin/b" with dependencies := some ["a"] }

/-- Descriptor `a` depending on `b` (for the cycle). -/
def svcAdepB : ServiceFile :=
  { ServiceFile.new "a" "/bin/a" with dependencies := some ["b"] }

/-- Claim C3, counterexample: two simultaneously ready services with equal
priority and names `b`, `a` (in that map order) are emitted `b` first —
the code pops before re-sorting and sorts by priority alone
(ordering.rs:64-66), so ties do not break by name ascending as claimed. -/
theorem order_services_tie_not_by_name :
    order_services [svcB, svcA] = Except.ok [svcB, svcA] ∧
    svcA.priority.getD 50 = svcB.priority.getD 50 ∧
    svcA.name = "a" ∧ svcB.name = "b" ∧
    order_services [svcB, svcA] ≠ Except.ok [svcA, svcB] := by decide

/-- Claim C3, witness: the amended theorem on the two-service chain
`b depends on a`: `a` is placed before `b`. -/
theorem order_services_dependency_before_witness :
    ∃ l1 l2 l3, [svcA, svcBdepA] = l1 ++ svcA :: l2 ++ svcBdepA :: l3 :=
  order_services_dependency_before [svcBdepA, svcA] [svcA, svcBdepA] (by decide)
    svcA svcBdepA (by decide) (by decide) (by decide)

/-- Claim C10, witness: the permutation theorem on the same chain. -/
theorem order_services_permutation_witness :
    ([svcA, svcBdepA]).Perm [svcBdepA, svcA] :=
  order_services_permutation [svcBdepA, svcA] [svcA, svcBdepA] (by decide) (by decide)

/-- Claim C8, counterexample: on the two-cycle `a ↔ b` the orderer fails
with `BloomError::Custom("Cycle detected in service dependencies")`; the
error taxonomy of the code (`BloomError`, src/bloom/src/errors.rs) has no
`DependencyCycle` variant at all. -/
theorem order_services_cycle_concrete :
    order_services [svcAdepB, svcBdepA] =
      Except.error (BloomError.Custom "Cycle detected in service dependencies") := by
  decide

/-- Claim C8, witness: the amended theorem applied to the concrete cycle
`["a", "b"]`. -/
theorem order_services_cycle_detected_witness :
    order_services [svcAdepB, svcBdepA] =
      Except.error (BloomError.Custom "Cycle detected in service dependencies") ∧
    0 < (["a", "b"] : List String).length :=
  ⟨order_services_cycle_detected [svcAdepB, svcBdepA] ["a", "b"] (by decide)
    (by decide) (by decide) (by decide), by decide⟩


/-! ## Claim C6: process stop ladder

The stop contract matches the spec except for the signal target: the code
signals the pid itself (`Pid::from_raw(pid as i32)`), not the process group
(negative pid) the spec describes. -/

/-- With a process that never dies, the SIGTERM poll loop times out after exactly its sleep budget, emitting one poll and one 100 ms sleep per step and a final poll. -/
theorem pollTermPh_all_ok (oracle : Nat → KillOutcome) (pidT : Int)
    (hall : ∀ j, oracle j = KillOutcome.ok) :
    ∀ steps idx, pollTermPh oracle pidT steps idx =
      (PollEnd.timedOut,
       (List.replicate steps
         [StopEvent.kill pidT none KillOutcome.ok, StopEvent.sleepMs 100]).flatten ++
         [StopEvent.kill pidT none KillOutcome.ok],
       idx + steps + 1)
  | 0, idx => by simp [pollTermPh, hall idx]
  | s + 1, idx => by
    simp [pollTermPh, hall idx, pollTermPh_all_ok oracle pidT hall s (idx + 1),
      List.replicate_succ]
    omega

/-- With a process that never dies, the SIGKILL poll loop times out after exactly its sleep budget. -/
theorem pollKillPh_all_ok (oracle : Nat → KillOutcome) (pidT : Int)
    (hall : ∀ j, oracle j = KillOutcome.ok) :
    ∀ steps idx, pollKillPh oracle pidT steps idx =
      (PollEnd.timedOut,
       (List.replicate steps
         [StopEvent.kill pidT none KillOutcome.ok, StopEvent.sleepMs 100]).flatten ++
         [StopEvent.kill pidT none KillOutcome.ok],
       idx + steps + 1)
  | 0, idx => by simp [pollKillPh, hall idx]
  | s + 1, idx => by
    simp [pollKillPh, hall idx, pollKillPh_all_ok oracle pidT hall s (idx + 1),
      List.replicate_succ]
    omega

/-- If the SIGTERM poll loop did not observe the process gone, no ESRCH poll event occurs in its event list. -/
theorem pollTermPh_not_gone_no_esrch (oracle : Nat → KillOutcome) (pidT : Int) :
    ∀ steps idx, (pollTermPh oracle pidT steps idx).1 ≠ PollEnd.gone →
      ∀ t s', StopEvent.kill t s' (KillOutcome.err KillErr.esrch) ∉
        (pollTermPh oracle pidT steps idx).2.1
  | 0, idx => by
    cases h : oracle idx with
    | ok => simp [pollTermPh, h]
    | err e => cases e <;> simp [pollTermPh, h]
  | s + 1, idx => by
    cases h : oracle idx with
    | ok =>
      intro hng t s'
      have hng2 : (pollTermPh oracle pidT s (idx + 1)).1 ≠ PollEnd.gone := by
        simpa [pollTermPh, h] using hng
      simp [pollTermPh, h]
      exact pollTermPh_not_gone_no_esrch oracle pidT s (idx + 1) hng2 t s'
    | err e => cases e <;> simp [pollTermPh, h]

/-- If the SIGKILL poll loop did not observe the process gone, no ESRCH poll event occurs in its event list. -/
theorem pollKillPh_not_gone_no_esrch (oracle : Nat → KillOutcome) (pidT : Int) :
    ∀ steps idx, (pollKillPh oracle pidT steps idx).1 ≠ PollEnd.gone →
      ∀ t s', StopEvent.kill t s' (KillOutcome.err KillErr.esrch) ∉
        (pollKillPh oracle pidT steps idx).2.1
  | 0, idx => by
    cases h : oracle idx with
    | ok => simp [pollKillPh, h]
    | err e => cases e <;> simp [pollKillPh, h]
  | s + 1, idx => by
    cases h : oracle idx with
    | ok =>
      intro hng t s'
      have hng2 : (pollKillPh oracle pidT s (idx + 1)).1 ≠ PollEnd.gone := by
        simpa [pollKillPh, h] using hng
      simp [pollKillPh, h]
      exact pollKillPh_not_gone_no_esrch oracle pidT s (idx + 1) hng2 t s'
    | err e => cases e <;> simp [pollKillPh, h]

/-- Every sleep of the SIGTERM poll loop is 100 ms. -/
theorem pollTermPh_sleep_100 (oracle : Nat → KillOutcome) (pidT : Int) :
    ∀ steps idx m, StopEvent.sleepMs m ∈ (pollTermPh oracle pidT steps idx).2.1 →
      m = 100
  | 0, idx, m => by
    cases h : oracle idx with
    | ok => simp [pollTermPh, h]
    | err e => cases e <;> simp [pollTermPh, h]
  | s + 1, idx, m => by
    cases h : oracle idx with
    | ok =>
      simp [pollTermPh, h]
      rintro (rfl | hmem)
      · rfl
      · exact pollTermPh_sleep_100 oracle pidT s (idx + 1) m hmem
    | err e => cases e <;> simp [pollTermPh, h]

/-- Every sleep of the SIGKILL poll loop is 100 ms. -/
theorem pollKillPh_sleep_100 (oracle : Nat → KillOutcome) (pidT : Int) :
    ∀ steps idx m, StopEvent.sleepMs m ∈ (pollKillPh oracle pidT steps idx).2.1 →
      m = 100
  | 0, idx, m => by
    cases h : oracle idx with
    | ok => simp [pollKillPh, h]
    | err e => cases e <;> simp [pollKillPh, h]
  | s + 1, idx, m => by
    cases h : oracle idx with
    | ok =>
      simp [pollKillPh, h]
      rintro (rfl | hmem)
      · rfl
      · exact pollKillPh_sleep_100 oracle pidT s (idx + 1) m hmem
    | err e => cases e <;> simp [pollKillPh, h]

/-- Without a `stop_cmd`, the first observable event of `stop_service` is the SIGTERM send, addressed to the pid itself cast to `i32` (a positive pid: the process, not its group). -/
theorem stop_service_head (svc : ServiceFile) (pid : Nat) (sc : Option Bool)
    (oracle : Nat → KillOutcome) (h : svc.stop_cmd = none) :
    (stop_service svc pid sc oracle).2.head? =
      some (StopEvent.kill (i32cast pid) (some Sig.SIGTERM) (oracle 0)) := by
  cases h0 : oracle 0 with
  | ok =>
    simp only [stop_service, h, h0]
    rcases hp1 : pollTermPh oracle (i32cast pid) ((svc.timeout_stop.getD 5) * 10) 1
      with ⟨e1, evs1, i1⟩
    cases e1 <;> simp [hp1] <;>
      (cases h1 : oracle i1 with
       | ok =>
         rcases hp2 : pollKillPh oracle (i32cast pid) 20 (i1 + 1) with ⟨e2, evs2, i2⟩
         cases e2 <;> simp [h1, hp2]
       | err e => cases e <;> simp [h1])
  | err e => cases e <;> simp [stop_service, h, h0]

/-- An ESRCH outcome at any executed kill call makes `stop_service` return `Ok` (without a `stop_cmd`). -/
theorem stop_service_esrch_ok (svc : ServiceFile) (pid : Nat) (sc : Option Bool)
    (oracle : Nat → KillOutcome) (h : svc.stop_cmd = none) :
    ∀ t s', StopEvent.kill t s' (KillOutcome.err KillErr.esrch) ∈
        (stop_service svc pid sc oracle).2 →
      (stop_service svc pid sc oracle).1 = Except.ok () := by
  intro t s'
  cases h0 : oracle 0 with
  | ok =>
    simp only [stop_service, h, h0]
    rcases hp1 : pollTermPh oracle (i32cast pid) ((svc.timeout_stop.getD 5) * 10) 1
      with ⟨e1, evs1, i1⟩
    have hno1 : e1 ≠ PollEnd.gone →
        StopEvent.kill t s' (KillOutcome.err KillErr.esrch) ∉ evs1 := by
      intro hne
      have := pollTermPh_not_gone_no_esrch oracle (i32cast pid)
        ((svc.timeout_stop.getD 5) * 10) 1 (by rw [hp1]; exact hne) t s'
      rw [hp1] at this
      exact this
    cases e1 with
    | gone => simp [hp1]
    | timedOut =>
      cases h1 : oracle i1 with
      | ok =>
        rcases hp2 : pollKillPh oracle (i32cast pid) 20 (i1 + 1) with ⟨e2, evs2, i2⟩
        have hno2 : e2 ≠ PollEnd.gone →
            StopEvent.kill t s' (KillOutcome.err KillErr.esrch) ∉ evs2 := by
          intro hne
          have := pollKillPh_not_gone_no_esrch oracle (i32cast pid) 20 (i1 + 1)
            (by rw [hp2]; exact hne) t s'
          rw [hp2] at this
          exact this
        cases e2 with
        | gone => simp [hp1, h1, hp2]
        | timedOut =>
          simp [hp1, h1, hp2]
          exact ⟨hno1 (by simp), hno2 (by simp)⟩
        | errOther m2 =>
          simp [hp1, h1, hp2]
          exact ⟨hno1 (by simp), hno2 (by simp)⟩
      | err e =>
        cases e with
        | esrch => simp [hp1, h1]
        | other m =>
          simp [hp1, h1]
          exact hno1 (by simp)
    | errOther m1 =>
      cases h1 : oracle i1 with
      | ok =>
        rcases hp2 : pollKillPh oracle (i32cast pid) 20 (i1 + 1) with ⟨e2, evs2, i2⟩
        have hno2 : e2 ≠ PollEnd.gone →
            StopEvent.kill t s' (KillOutcome.err KillErr.esrch) ∉ evs2 := by
          intro hne
          have := pollKillPh_not_gone_no_esrch oracle (i32cast pid) 20 (i1 + 1)
            (by rw [hp2]; exact hne) t s'
          rw [hp2] at this
          exact this
        cases e2 with
        | gone => simp [hp1, h1, hp2]
        | timedOut =>
          simp [hp1, h1, hp2]
          exact ⟨hno1 (by simp), hno2 (by simp)⟩
        | errOther m2 =>
          simp [hp1, h1, hp2]
          exact ⟨hno1 (by simp), hno2 (by simp)⟩
      | err e =>
        cases e with
        | esrch => simp [hp1, h1]
        | other m =>
          simp [hp1, h1]
          exact hno1 (by simp)
  | err e =>
    cases e with
    | esrch => simp [stop_service, h, h0]
    | other m => simp [stop_service, h, h0]

/-- Without a `stop_cmd`, every sleep `stop_service` performs is the 100 ms poll cadence. -/
theorem stop_service_sleep_100 (svc : ServiceFile) (pid : Nat) (sc : Option Bool)
    (oracle : Nat → KillOutcome) (h : svc.stop_cmd = none) :
    ∀ m, StopEvent.sleepMs m ∈ (stop_service svc pid sc oracle).2 → m = 100 := by
  intro m
  cases h0 : oracle 0 with
  | ok =>
    simp only [stop_service, h, h0]
    rcases hp1 : pollTermPh oracle (i32cast pid) ((svc.timeout_stop.getD 5) * 10) 1
      with ⟨e1, evs1, i1⟩
    have hs1 : StopEvent.sleepMs m ∈ evs1 → m = 100 := by
      intro hm
      have := pollTermPh_sleep_100 oracle (i32cast pid)
        ((svc.timeout_stop.getD 5) * 10) 1 m
      rw [hp1] at this
      exact this hm
    cases e1 with
    | gone =>
      simp [hp1]
      exact hs1
    | timedOut =>
      cases h1 : oracle i1 with
      | ok =>
        rcases hp2 : pollKillPh oracle (i32cast pid) 20 (i1 + 1) with ⟨e2, evs2, i2⟩
        have hs2 : StopEvent.sleepMs m ∈ evs2 → m = 100 := by
          intro hm
          have := pollKillPh_sleep_100 oracle (i32cast pid) 20 (i1 + 1) m
          rw [hp2] at this
          exact this hm
        cases e2 <;> simp [hp1, h1, hp2] <;>
          exact fun hm => hm.elim hs1 hs2
      | err e => cases e <;> simp [hp1, h1] <;> exact hs1
    | errOther m1 =>
      cases h1 : oracle i1 with
      | ok =>
        rcases hp2 : pollKillPh oracle (i32cast pid) 20 (i1 + 1) with ⟨e2, evs2, i2⟩
        have hs2 : StopEvent.sleepMs m ∈ evs2 → m = 100 := by
          intro hm
          have := pollKillPh_sleep_100 oracle (i32cast pid) 20 (i1 + 1) m
          rw [hp2] at this
          exact this hm
        cases e2 <;> simp [hp1, h1, hp2] <;>
          exact fun hm => hm.elim hs1 hs2
      | err e => cases e <;> simp [hp1, h1] <;> exact hs1
  | err e => cases e <;> simp [stop_service, h, h0]

/-- Against a process that never dies, `stop_service` runs the full ladder: SIGTERM, `10·timeout_stop` polls at 100 ms, SIGKILL, 20 polls at 100 ms, then the SIGKILL-timeout error. -/
theorem stop_service_all_alive (svc : ServiceFile) (pid : Nat) (sc : Option Bool)
    (oracle : Nat → KillOutcome) (h : svc.stop_cmd = none)
    (hall : ∀ j, oracle j = KillOutcome.ok) :
    stop_service svc pid sc oracle =
      (Except.error (BloomError.Custom
        ("Process " ++ Nat.repr pid ++ " did not exit after SIGKILL")),
       StopEvent.kill (i32cast pid) (some Sig.SIGTERM) KillOutcome.ok ::
       (((List.replicate ((svc.timeout_stop.getD 5) * 10)
           [StopEvent.kill (i32cast pid) none KillOutcome.ok,
            StopEvent.sleepMs 100]).flatten ++
         [StopEvent.kill (i32cast pid) none KillOutcome.ok]) ++
        (StopEvent.kill (i32cast pid) (some Sig.SIGKILL) KillOutcome.ok ::
         ((List.replicate 20
            [StopEvent.kill (i32cast pid) none KillOutcome.ok,
             StopEvent.sleepMs 100]).flatten ++
          [StopEvent.kill (i32cast pid) none KillOutcome.ok])))) := by
  simp only [stop_service, h, hall,
    pollTermPh_all_ok oracle (i32cast pid) hall ((svc.timeout_stop.getD 5) * 10) 1,
    pollKillPh_all_ok oracle (i32cast pid) hall 20]
  simp

/-- Claim C6, counterexample: the first signal is sent to the pid `42`
itself (`kill(42, SIGTERM)`), not to the process group via the negative pid
`-42` the claim describes; `Pid::from_raw(pid as i32)` never negates
(process.rs:108-112). -/
theorem stop_service_positive_pid :
    (stop_service (ServiceFile.new "s" "/bin/s") 42 none
      (fun i => if i = 0 then KillOutcome.ok else KillOutcome.err KillErr.esrch)).2.head? =
      some (StopEvent.kill 42 (some Sig.SIGTERM) KillOutcome.ok) ∧
    (42 : Int) ≠ -42 := by decide

/-- Claim C6, amended: without a `stop_cmd`, `stop_service` sends SIGTERM to
the child's pid (positive — the process itself, not its group), polls at a
100 ms cadence until `timeout_stop`, then sends SIGKILL and polls for up to
2 s, treats ESRCH at any kill call as success, and errors out if the
process survives the whole ladder. -/
theorem stop_service_term_poll_kill (svc : ServiceFile) (pid : Nat)
    (sc : Option Bool) (oracle : Nat → KillOutcome) (h : svc.stop_cmd = none) :
    ((stop_service svc pid sc oracle).2.head? =
      some (StopEvent.kill (i32cast pid) (some Sig.SIGTERM) (oracle 0))) ∧
    (∀ t s', StopEvent.kill t s' (KillOutcome.err KillErr.esrch) ∈
        (stop_service svc pid sc oracle).2 →
      (stop_service svc pid sc oracle).1 = Except.ok ()) ∧
    (∀ m, StopEvent.sleepMs m ∈ (stop_service svc pid sc oracle).2 → m = 100) ∧
    ((∀ j, oracle j = KillOutcome.ok) →
      stop_service svc pid sc oracle =
        (Except.error (BloomError.Custom
          ("Process " ++ Nat.repr pid ++ " did not exit after SIGKILL")),
         StopEvent.kill (i32cast pid) (some Sig.SIGTERM) KillOutcome.ok ::
         (((List.replicate ((svc.timeout_stop.getD 5) * 10)
             [StopEvent.kill (i32cast pid) none KillOutcome.ok,
              StopEvent.sleepMs 100]).flatten ++
           [StopEvent.kill (i32cast pid) none KillOutcome.ok]) ++
          (StopEvent.kill (i32cast pid) (some Sig.SIGKILL) KillOutcome.ok ::
           ((List.replicate 20
              [StopEvent.kill (i32cast pid) none KillOutcome.ok,
               StopEvent.sleepMs 100]).flatten ++
            [StopEvent.kill (i32cast pid) none KillOutcome.ok]))))) :=
  ⟨stop_service_head svc pid sc oracle h,
   stop_service_esrch_ok svc pid sc oracle h,
   stop_service_sleep_100 svc pid sc oracle h,
   stop_service_all_alive svc pid sc oracle h⟩

/-- Claim C6, witness: the amended theorem applied to a descriptor with
`timeout_stop = 1` and a never-dying process: SIGTERM to pid 42, 10 polls,
SIGKILL, 20 polls, then the error. -/
theorem stop_service_term_poll_kill_witness :
    (stop_service { ServiceFile.new "s" "/bin/s" with timeout_stop := some 1 } 42 none
      (fun _ => KillOutcome.ok)).1 =
      Except.error (BloomError.Custom "Process 42 did not exit after SIGKILL") ∧
    ((stop_service { ServiceFile.new "s" "/bin/s" with timeout_stop := some 1 } 42 none
      (fun _ => KillOutcome.ok)).2.filter
        (fun e => match e with | StopEvent.sleepMs _ => true | _ => false)).length = 30 := by
  have h4 := (stop_service_term_poll_kill
    { ServiceFile.new "s" "/bin/s" with timeout_stop := some 1 } 42 none
    (fun _ => KillOutcome.ok) rfl).2.2.2 (fun j => rfl)
  rw [h4]
  exact ⟨rfl, by decide⟩


/-! ## Claim C5: target checking on the control socket

The spec says a request with `target ≠ Verdantd` is refused with
`{success:false, message:"Incorrect target"}`.  `handle_client` never
inspects `request.target`: a `Shutdown`/`Reboot` request is acknowledged and
executed whatever the target, and the string "Incorrect target" does not
occur in the program. -/

/-- Claim C5, counterexample: a parsed request with `target = Init` and
`command = Shutdown` is answered `success:true, "Shutdown initiated"` and
the shutdown procedure is performed, contradicting the claimed
`success:false, "Incorrect target"` refusal with no command performed. -/
theorem handle_client_wrong_target_accepted :
    handle_client (some ⟨IpcTarget.Init, IpcCommand.Shutdown⟩) =
      ({ success := true, message := "Shutdown initiated", data := none }, true) := rfl

/-- Claim C5, amended: `handle_client` ignores `request.target` entirely —
the response and the action performed depend only on the command — and no
response ever carries the message "Incorrect target". -/
theorem handle_client_ignores_target :
    (∀ t₁ t₂ : IpcTarget, ∀ c : IpcCommand,
      handle_client (some ⟨t₁, c⟩) = handle_client (some ⟨t₂, c⟩)) ∧
    (∀ p : Option IpcRequest, (handle_client p).1.message ≠ "Incorrect target") := by
  refine ⟨fun t₁ t₂ c => rfl, fun p => ?_⟩
  match p with
  | none => decide
  | some ⟨t, c⟩ =>
    cases c <;> simp [handle_client, cmdDebug]

/-! ## Claim C9: vctl exit code and output streams

The spec says the exit code is 0 iff `response.success`.  `vctl`'s `main`
returns `()` on every path and never calls `process::exit`, so the process
exit code is 0 even when the response reports failure; the message routing
(stdout on success, stderr on failure) matches the spec. -/

/-- Claim C9, counterexample: for a failure response the claimed equivalence
"exit code 0 iff success" is false — the exit code is 0 while
`response.success` is `false`. -/
theorem vctl_main_exitcode_claim_false :
    ¬ (((vctl_main Commands.Shutdown
          (Except.ok ⟨false, "denied", none⟩)).1 = 0) ↔
        (IpcResponse.mk false "denied" none).success = true) := by decide

/-- Claim C9, amended: the exit code is 0 on every path (success, failure
and transport error); the response message goes to stdout on success and to
stderr on failure, and a transport error is reported on stderr. -/
theorem vctl_main_behavior :
    (∀ cmd r, vctl_main cmd (Except.ok r) =
      (0, if r.success then [OutEvent.stdout ("Command succeeded: " ++ r.message)]
          else [OutEvent.stderr ("Command failed: " ++ r.message)])) ∧
    (∀ cmd e, vctl_main cmd (Except.error e) =
      (0, [OutEvent.stderr ("Failed to send IPC request: " ++ e)])) := by
  refine ⟨fun cmd r => ?_, fun cmd e => rfl⟩
  cases hr : r.success <;> simp [vctl_main, hr]

/-! ## Claim C2: restart counting under `restart = Always`

On an observed exit with `restart = Always` the loop increments
`restart_count` and sleeps `restart_delay` before starting again
(supervisor.rs:251-263) — but `Supervisor::start` ends with
`self.restart_count = 0;` (supervisor.rs:58), so the increment is wiped out
by the very restart it counts.  The claimed "three launches, restart_count=2
at steady state" scenario ends with `restart_count = 0`. -/

/-- Total number of `launch` actions performed by a supervise run (initial
phase plus loop trace). -/
def superviseLaunchCount
    (r : SupState × List SupAction × List TraceEntry × Option BloomError) : Nat :=
  (r.2.1 ++ (r.2.2.1.map TraceEntry.acts).flatten).count SupAction.launch

/-- Claim C2: with `restart = Always` and `restart_delay = 1`, a run whose
child exits twice (three launches in total, each exit followed by the delay
sleep and a relaunch) ends in steady state with `restart_count = 0`, not the
claimed 2: the increment at supervisor.rs:253 is immediately reset by
`Supervisor::start` (supervisor.rs:58). -/
theorem supervise_restart_count_resets :
    superviseLaunchCount (supervise_loop
      { ServiceFile.new "svc" "/bin/x" with
          restart := RestartPolicy.Always, restart_delay := some 1 }
      ⟨false, 0, ServiceState.Stopped⟩ false true
      [⟨false, false, false, WaitRes.exited false, true, true, false⟩,
       ⟨false, false, false, WaitRes.exited false, true, true, false⟩,
       ⟨false, false, false, WaitRes.running, true, true, false⟩]) = 3 ∧
    (supervise_loop
      { ServiceFile.new "svc" "/bin/x" with
          restart := RestartPolicy.Always, restart_delay := some 1 }
      ⟨false, 0, ServiceState.Stopped⟩ false true
      [⟨false, false, false, WaitRes.exited false, true, true, false⟩,
       ⟨false, false, false, WaitRes.exited false, true, true, false⟩,
       ⟨false, false, false, WaitRes.running, true, true, false⟩]).1.restart_count = 0 ∧
    (∀ entry ∈ (supervise_loop
      { ServiceFile.new "svc" "/bin/x" with
          restart := RestartPolicy.Always, restart_delay := some 1 }
      ⟨false, 0, ServiceState.Stopped⟩ false true
      [⟨false, false, false, WaitRes.exited false, true, true, false⟩,
       ⟨false, false, false, WaitRes.exited false, true, true, false⟩,
       ⟨false, false, false, WaitRes.running, true, true, false⟩]).2.2.1,
      entry.env.wait = WaitRes.exited false →
        entry.acts = [SupAction.restartSleep 1, SupAction.launch]) := by decide

/-! ## Claim C7: defaults applied after parse

All scalar defaults match the spec except the log paths, which live under
`/var/log/verdant/services/`, not `/var/log/`. -/

/-- Field-wise description of the default-filling chain (parser.rs:194-217):
each optional field is filled with its default when absent, `restart` and
`name` are untouched. -/
theorem applyDefaults_fields (t : ServiceFile) :
    (applyDefaults t).restart_delay = some (t.restart_delay.getD 0) ∧
    (applyDefaults t).timeout_start = some (t.timeout_start.getD 10) ∧
    (applyDefaults t).timeout_stop = some (t.timeout_stop.getD 5) ∧
    (applyDefaults t).umask = some (t.umask.getD "022") ∧
    (applyDefaults t).nice = some (t.nice.getD 0) ∧
    (applyDefaults t).priority = some (t.priority.getD 50) ∧
    (applyDefaults t).stdout_log =
      some (t.stdout_log.getD ("/var/log/verdant/services/" ++ t.name ++ ".out.log")) ∧
    (applyDefaults t).stderr_log =
      some (t.stderr_log.getD ("/var/log/verdant/services/" ++ t.name ++ ".err.log")) ∧
    (applyDefaults t).restart = t.restart ∧
    (applyDefaults t).name = t.name := by
  unfold applyDefaults
  rcases t with ⟨nm, de, cm, ar, prc, poc, pk, spk, ev, us, gr, wd, rs, rd, scm, ts,
    tp, dp, pr, so, se, um, ni, tg, ins⟩
  cases rd <;> cases ts <;> cases tp <;> cases um <;> cases ni <;> cases pr <;>
    cases so <;> cases se <;> simp

/-- The trimmed key a line would set as a `key: value` scalar, `none` for
comment/blank/indented/key-less lines (the branch conditions of the parser
loop). -/
def scalarKeyOf (rawLine : List Char) : Option String :=
  let line := trimEndChars rawLine
  if line.isEmpty ∨ line.head? = some '#' then none
  else if isPrefixList [' ', ' '] line ∨ line.head? = some '\x09' then none
  else
    match splitOnceChar ':' line with
    | some kv => some ⟨trimChars kv.1⟩
    | none => none

/-- A line that is not a `restart:` scalar leaves the `restart` field
unchanged. -/
theorem parseLine_restart (svc : ServiceFile) (ck : Option String) (rawLine : List Char)
    (h : scalarKeyOf rawLine ≠ some "restart") :
    (parseLine svc ck rawLine).1.restart = svc.restart := by
  unfold parseLine
  unfold scalarKeyOf at h
  simp only [List.isEmpty_iff] at h ⊢
  by_cases h1 : trimEndChars rawLine = [] ∨ (trimEndChars rawLine).head? = some '#'
  · simp [h1]
  · simp only [h1, if_false] at h ⊢
    by_cases h2 : (isPrefixList [' ', ' '] (trimEndChars rawLine) = true) ∨
        (trimEndChars rawLine).head? = some '\x09'
    · simp only [h2, if_true]
      cases ck with
      | none => rfl
      | some key => split <;> (try split) <;> simp
    · simp only [h2, if_false] at h ⊢
      cases hsp : splitOnceChar ':' (trimEndChars rawLine) with
      | none => simp
      | some kv =>
        simp only [hsp] at h ⊢
        split <;> (try split) <;> simp_all

/-- A file none of whose lines is a `restart:` scalar leaves `restart` at
the initial value of the fold. -/
theorem parseLoopAux_restart :
    ∀ (lines : List (List Char)) (svc : ServiceFile) (ck : Option String),
      (∀ l ∈ lines, scalarKeyOf l ≠ some "restart") →
      ((lines.foldl (fun st l => parseLine st.1 st.2 l) (svc, ck)).1).restart = svc.restart
  | [], svc, ck, _ => rfl
  | l :: lines, svc, ck, h => by
    rw [List.foldl_cons]
    have hrest := parseLoopAux_restart lines (parseLine svc ck l).1 (parseLine svc ck l).2
      (fun x hx => h x (List.mem_cons_of_mem l hx))
    rw [hrest]
    exact parseLine_restart svc ck l (h l (List.mem_cons_self l lines))

/-- Claim C7, counterexample: for the minimal descriptor the default
`stdout_log` is `/var/log/verdant/services/a.out.log`, not the claimed
`/var/log/a.out.log`. -/
theorem parse_service_file_log_default_path :
    (parse_service_file "/etc/verdant/services/a.vs" "name: a\ncmd: b" []).toOption.map
        (fun s => s.stdout_log) = some (some "/var/log/verdant/services/a.out.log") ∧
    "/var/log/verdant/services/a.out.log" ≠ "/var/log/a.out.log" := by decide

/-- Claim C7, amended: a successfully parsed descriptor whose parse loop
left the corresponding field empty gets `restart_delay = 0`,
`timeout_start = 10`, `timeout_stop = 5`, `umask = "022"`, `nice = 0`,
`priority = 50`, `stdout_log = /var/log/verdant/services/<name>.out.log`,
`stderr_log = /var/log/verdant/services/<name>.err.log`; a file with no
`restart:` scalar keeps `restart = Never`. -/
theorem parse_service_file_defaults (path content : String)
    (vars : List (String × String)) (t s : ServiceFile)
    (ht : parseLoop (rustLines ((apply_template content vars).data)) = t)
    (h : parse_service_file path content vars = Except.ok s) :
    (t.restart_delay = none → s.restart_delay = some 0) ∧
    (t.timeout_start = none → s.timeout_start = some 10) ∧
    (t.timeout_stop = none → s.timeout_stop = some 5) ∧
    (t.umask = none → s.umask = some "022") ∧
    (t.nice = none → s.nice = some 0) ∧
    (t.priority = none → s.priority = some 50) ∧
    (t.stdout_log = none →
      s.stdout_log = some ("/var/log/verdant/services/" ++ s.name ++ ".out.log")) ∧
    (t.stderr_log = none →
      s.stderr_log = some ("/var/log/verdant/services/" ++ s.name ++ ".err.log")) ∧
    ((∀ l ∈ rustLines ((apply_template content vars).data),
        scalarKeyOf l ≠ some "restart") → s.restart = RestartPolicy.Never) := by
  simp only [parse_service_file] at h
  rw [ht] at h
  by_cases hn : t.name = ""
  · simp [hn] at h
  · by_cases hc : t.cmd = ""
    · simp [hn, hc] at h
    · simp only [hn, hc, if_false] at h
      have hs : applyDefaults t = s := Except.ok.inj h
      obtain ⟨f1, f2, f3, f4, f5, f6, f7, f8, f9, f10⟩ := applyDefaults_fields t
      subst hs
      refine ⟨fun hz => ?_, fun hz => ?_, fun hz => ?_, fun hz => ?_, fun hz => ?_,
        fun hz => ?_, fun hz => ?_, fun hz => ?_, fun hall => ?_⟩
      · rw [f1, hz]; rfl
      · rw [f2, hz]; rfl
      · rw [f3, hz]; rfl
      · rw [f4, hz]; rfl
      · rw [f5, hz]; rfl
      · rw [f6, hz]; rfl
      · rw [f7, hz, f10]; rfl
      · rw [f8, hz, f10]; rfl
      · rw [f9, ← ht]
        exact parseLoopAux_restart _ _ _ hall

/-- Claim C7, witness: the amended theorem applied to the minimal
two-line descriptor `name: a` / `cmd: b`, every default filled. -/
theorem parse_service_file_defaults_witness :
    ∃ s : ServiceFile, parse_service_file "/p.vs" "name: a\ncmd: b" [] = Except.ok s ∧
      s.restart_delay = some 0 ∧ s.timeout_start = some 10 ∧ s.timeout_stop = some 5 ∧
      s.umask = some "022" ∧ s.nice = some 0 ∧ s.priority = some 50 ∧
      s.stdout_log = some ("/var/log/verdant/services/" ++ s.name ++ ".out.log") ∧
      s.stderr_log = some ("/var/log/verdant/services/" ++ s.name ++ ".err.log") ∧
      s.restart = RestartPolicy.Never := by
  obtain ⟨h1, h2, h3, h4, h5, h6, h7, h8, h9⟩ :=
    parse_service_file_defaults "/p.vs" "name: a\ncmd: b" [] _ _ rfl rfl
  exact ⟨_, rfl, h1 (by decide), h2 (by decide), h3 (by decide), h4 (by decide),
    h5 (by decide), h6 (by decide), h7 (by decide), h8 (by decide), h9 (by decide)⟩

/-! ## Claim C1: template expansion

The spec says a templated file is parsed once to discover `instances` and
re-parsed per instance with `{}` substituted.  `load_services` never reads
the parsed `instances` field: it expands a `@`-file once per tty device
`tty1..tty6` present in `/dev`, substituting `{id}` and renaming from the
file name. -/

/-- Claim C1, counterexample: a template file with no `instances` list (the
claim demands zero descriptors) still produces one descriptor per tty
device found in `/dev`, here `getty@tty1`. -/
theorem load_services_template_no_instances :
    (load_services [("getty@.vs", "name: x\ncmd: y")] ["tty1"]).toOption.map
      (fun l => l.map ServiceFile.name) = some ["getty@tty1"] := by decide

/-- Names produced by the template expansion: mapping `ServiceFile.name` over
a `filterMap` of per-id parses equals mapping `templateName` over the ids
whose parse succeeds. -/
theorem filterMapNames (fname content : String) :
    ∀ ids : List String,
      ((ids.filterMap (fun id =>
        match parse_service_file fname content [("id", id)] with
        | Except.ok service => some { service with name := templateName fname id }
        | Except.error _ => none)).map ServiceFile.name) =
      ((ids.filter (fun id => (parse_service_file fname content [("id", id)]).isOk)).map
        (templateName fname))
  | [] => rfl
  | id :: ids => by
    cases h : parse_service_file fname content [("id", id)] with
    | ok s =>
      simp [List.filterMap_cons, List.filter_cons, h, Except.isOk, Except.toBool,
        filterMapNames fname content ids]
    | error e =>
      simp [List.filterMap_cons, List.filter_cons, h, Except.isOk, Except.toBool,
        filterMapNames fname content ids]

/-- Claim C1, amended: a templated file (name containing `@`, extension
`vs`) is expanded once per tty device `tty1..tty6` present in `/dev` — not
per `instances` entry, which the loader ignores — with each parse receiving
`{id} := <device>` and the resulting descriptor renamed
`filename.replace("@", "@<id>").replace(".vs", "")`. -/
theorem loadParsed_template_by_tty (fname content : String) (devNames : List String)
    (hat : fname.data.contains '@' = true) (hext : rustExtension fname = some "vs") :
    (loadParsed [(fname, content)] devNames).map ServiceFile.name =
      ((find_tty_devices devNames).filter
        (fun id => (parse_service_file fname content [("id", id)]).isOk)).map
        (templateName fname) := by
  unfold loadParsed loadOne
  simp only [List.foldl_cons, List.foldl_nil, hext, if_pos, hat, if_true, List.nil_append]
  exact filterMapNames fname content (find_tty_devices devNames)

/-- Claim C1, witness: the amended theorem applied to `getty@.vs` with two
tty devices present: two descriptors, named `getty@tty1` and `getty@tty2`. -/
theorem loadParsed_template_by_tty_witness :
    ("getty@.vs".data.contains '@' = true) ∧
    rustExtension "getty@.vs" = some "vs" ∧
    (loadParsed [("getty@.vs", "name: x\ncmd: y")] ["tty1", "tty2"]).map ServiceFile.name =
      ["getty@tty1", "getty@tty2"] := by
  refine ⟨by decide, by decide, ?_⟩
  rw [loadParsed_template_by_tty "getty@.vs" "name: x\ncmd: y" ["tty1", "tty2"]
    (by decide) (by decide)]
  decide

/-! ## Claim C4: TTY arbitration scope

The probe-gated start applies only to services whose name has the exact
prefix `tty` before `@` (`is_tty_instance`), not to every `*@ttyN` name. -/

/-- Claim C4, counterexample: `getty@tty1` matches `*@tty1` but
`is_tty_instance` rejects it (prefix `getty` ≠ `tty`), so with the tty
probe reporting in-use at first start the supervisor launches the child
anyway. -/
theorem supervise_getty_launches_while_tty_in_use :
    is_tty_instance "getty@tty1" = none ∧
    (supervise_loop
      { ServiceFile.new "getty@tty1" "/sbin/agetty" with
          restart := RestartPolicy.Always }
      ⟨false, 0, ServiceState.Stopped⟩ true true []).2.1 = [SupAction.launch] := by
  decide

/-- Actions carried by a `StepOut`. -/
def stepActs : StepOut → List SupAction
  | StepOut.cont _ _ a => a
  | StepOut.brk _ a => a
  | StepOut.err _ a _ => a

/-- For a `tty@`-named service, a loop iteration whose probe reports the tty
in use performs no launch (shutdown path, stop path and idle path only). -/
theorem superviseStep_tty_safe (svc : ServiceFile) (tid : String)
    (htty : is_tty_instance svc.name = some tid) (st : SupState)
    (last : ServiceState) (env : SupEnv) (hin : env.ttyInUse = true) :
    SupAction.launch ∉ stepActs (superviseStep svc st last env) := by
  rcases env with ⟨sd, sde, tty, w, so, ko, weo⟩
  rcases st with ⟨child, rc, stt⟩
  simp only at hin
  subst hin
  cases sd <;> cases child <;> cases ko <;> cases weo <;> cases stt <;>
    simp_all [superviseStep, supStart, supStop, stepActs, htty]

/-- Trace version of `superviseStep_tty_safe`: no recorded iteration with
the probe reporting in-use contains a launch. -/
theorem superviseGo_tty_no_launch (svc : ServiceFile) (tid : String)
    (htty : is_tty_instance svc.name = some tid) :
    ∀ (envs : List SupEnv) (st : SupState) (last : ServiceState),
      ∀ e ∈ (superviseGo svc st last envs).2.1,
        e.env.ttyInUse = true → SupAction.launch ∉ e.acts := by
  intro envs
  induction envs with
  | nil => intro st last e he; simp [superviseGo] at he
  | cons env rest ih =>
    intro st last e he hin
    cases hstep : superviseStep svc st last env with
    | cont st1 l1 a =>
      rw [superviseGo, hstep] at he
      rcases List.mem_cons.mp he with rfl | htail
      · have := superviseStep_tty_safe svc tid htty st last env hin
        rw [hstep] at this
        exact this
      · exact ih st1 l1 e htail hin
    | brk st1 a =>
      rw [superviseGo, hstep] at he
      rcases List.mem_cons.mp he with rfl | htail
      · have := superviseStep_tty_safe svc tid htty st last env hin
        rw [hstep] at this
        exact this
      · simp at htail
    | err st1 a er =>
      rw [superviseGo, hstep] at he
      rcases List.mem_cons.mp he with rfl | htail
      · have := superviseStep_tty_safe svc tid htty st last env hin
        rw [hstep] at this
        exact this
      · simp at htail

/-- For a `tty@`-named `restart = Always` service, an iteration with the
shutdown flag clear, the probe reporting free, state `Stopped` and no child
launches the child (given the spawn succeeds). -/
theorem superviseStep_tty_live (svc : ServiceFile) (tid : String)
    (htty : is_tty_instance svc.name = some tid) (st : SupState)
    (last : ServiceState) (env : SupEnv)
    (h1 : env.shutdown = false) (h2 : env.ttyInUse = false)
    (h3 : st.state = ServiceState.Stopped) (h4 : svc.restart = RestartPolicy.Always)
    (h5 : st.child = false) (h6 : env.startOk = true) :
    SupAction.launch ∈ stepActs (superviseStep svc st last env) := by
  rcases env with ⟨sd, sde, tty, w, so, ko, weo⟩
  rcases st with ⟨child, rc, stt⟩
  simp only at h1 h2 h3 h5 h6
  subst h1; subst h2; subst h3; subst h5; subst h6
  simp [superviseStep, supStart, supStop, stepActs, htty, h4]

/-- Trace version of `superviseStep_tty_live`. -/
theorem superviseGo_tty_resume (svc : ServiceFile) (tid : String)
    (htty : is_tty_instance svc.name = some tid) :
    ∀ (envs : List SupEnv) (st : SupState) (last : ServiceState),
      ∀ e ∈ (superviseGo svc st last envs).2.1,
        e.env.shutdown = false → e.env.ttyInUse = false →
        e.pre.state = ServiceState.Stopped → svc.restart = RestartPolicy.Always →
        e.pre.child = false → e.env.startOk = true →
        SupAction.launch ∈ e.acts := by
  intro envs
  induction envs with
  | nil => intro st last e he; simp [superviseGo] at he
  | cons env rest ih =>
    intro st last e he
    cases hstep : superviseStep svc st last env with
    | cont st1 l1 a =>
      rw [superviseGo, hstep] at he
      rcases List.mem_cons.mp he with rfl | htail
      · intro h1 h2 h3 h4 h5 h6
        have := superviseStep_tty_live svc tid htty st last env h1 h2 h3 h4 h5 h6
        rw [hstep] at this
        exact this
      · exact ih st1 l1 e htail
    | brk st1 a =>
      rw [superviseGo, hstep] at he
      rcases List.mem_cons.mp he with rfl | htail
      · intro h1 h2 h3 h4 h5 h6
        have := superviseStep_tty_live svc tid htty st last env h1 h2 h3 h4 h5 h6
        rw [hstep] at this
        exact this
      · simp at htail
    | err st1 a er =>
      rw [superviseGo, hstep] at he
      rcases List.mem_cons.mp he with rfl | htail
      · intro h1 h2 h3 h4 h5 h6
        have := superviseStep_tty_live svc tid htty st last env h1 h2 h3 h4 h5 h6
        rw [hstep] at this
        exact this
      · simp at htail

/-- Claim C4, amended: TTY arbitration holds for services whose name has
the exact prefix `tty` before `@` (`is_tty_instance` accepts them): at
first start a busy tty means no launch at all, no loop iteration with the
probe reporting in-use performs a launch, and once the probe reports free a
`restart = Always` supervisor in state `Stopped` with no child launches
again. -/
theorem supervise_tty_arbitration (svc : ServiceFile) (tid : String)
    (htty : is_tty_instance svc.name = some tid) :
    (∀ (st0 : SupState) (startOk : Bool),
      (superviseInit svc st0 true startOk).2.1 = []) ∧
    (∀ (st : SupState) (last : ServiceState) (envs : List SupEnv),
      ∀ e ∈ (superviseGo svc st last envs).2.1,
        e.env.ttyInUse = true → SupAction.launch ∉ e.acts) ∧
    (∀ (st : SupState) (last : ServiceState) (envs : List SupEnv),
      ∀ e ∈ (superviseGo svc st last envs).2.1,
        e.env.shutdown = false → e.env.ttyInUse = false →
        e.pre.state = ServiceState.Stopped → svc.restart = RestartPolicy.Always →
        e.pre.child = false → e.env.startOk = true →
        SupAction.launch ∈ e.acts) := by
  refine ⟨fun st0 startOk => ?_, fun st last envs => superviseGo_tty_no_launch svc tid htty envs st last, fun st last envs => superviseGo_tty_resume svc tid htty envs st last⟩
  rcases st0 with ⟨child, rc, stt⟩
  cases child <;> simp [superviseInit, htty]

/-- Claim C4, witness: the amended theorem applied to the service
`tty@tty1`, first-start conjunct, with the probe reporting in use. -/
theorem supervise_tty_arbitration_witness :
    is_tty_instance "tty@tty1" = some "tty1" ∧
    (superviseInit { ServiceFile.new "tty@tty1" "/sbin/agetty" with restart := RestartPolicy.Always } ⟨false, 0, ServiceState.Stopped⟩ true true).2.1 = [] := by
  refine ⟨by decide, ?_⟩
  exact (supervise_tty_arbitration _ "tty1" (by decide)).1 _ _

end Verdant
